import Mathlib

/-!
Verification model of glbrush.js (cjuha/glbrush.js), centred on the event-log,
layer-stack and memory-budget engine of `src/picture.js`.

Conventions of the embedding:

* JavaScript numbers are embedded as exact fractions: the type `GB.Q` below is
  an unnormalised integer fraction (numerator / denominator).  All arithmetic
  performed by the modelled code is linear (additions, subtractions, one
  division for averages), so exact fractions capture it.
* Buffer ids and session identifiers are natural numbers; positions that the
  source keeps as JavaScript array indices (where `-1` means "not found") are
  embedded as `Option Nat`.
* The source's array mutations (`splice`) are embedded with explicit helper
  functions mirroring JavaScript clamping semantics.
* Code of the repository that is not under `src/` (picture_buffer.js,
  picture_event.js, undo_state.js: only their callers are in `src/`) is
  modelled from the spec; every such definition carries a doc comment starting
  with `Modelled from the spec:`.
* Exceptions thrown by the JavaScript code (`TypeError` on an `undefined`
  member access, a parse error thrown by event parsing) are embedded as
  `Except GB.JsErr`; `JsErr.nonterm` marks a state in which the source's
  `while` loop would run forever (its body no longer changes any state).
-/

namespace GB

/-- Exact fraction embedding a JavaScript number: an unnormalised pair of an
integer numerator and a natural denominator.  All values constructed by the
modelled code have a positive denominator. -/
structure Q where
  num : Int
  den : Nat
  deriving DecidableEq, Repr

/-- Embed an integer as a fraction. -/
def Q.ofInt (n : Int) : Q := ⟨n, 1⟩

/-- Addition of fractions (cross multiplication, no normalisation). -/
def Q.add (a b : Q) : Q := ⟨a.num * b.den + b.num * a.den, a.den * b.den⟩

/-- Subtraction of fractions. -/
def Q.sub (a b : Q) : Q := ⟨a.num * b.den - b.num * a.den, a.den * b.den⟩

/-- Division of a fraction by a natural number. -/
def Q.divNat (a : Q) (n : Nat) : Q := ⟨a.num, a.den * n⟩

/-- Strict order on fractions by cross multiplication; this is the JavaScript
comparison `a < b` whenever both denominators are positive. -/
def Q.blt (a b : Q) : Bool := a.num * (b.den : Int) < b.num * (a.den : Int)

/-- Floor of a fraction (JavaScript `Math.floor`), as an integer. -/
def Q.floor (q : Q) : Int := Int.fdiv q.num (q.den : Int)

/-- Floor of a fraction clamped to a natural number. -/
def Q.floorNat (q : Q) : Nat := q.floor.toNat

/-- Ceiling of a fraction clamped to a natural number; used only as a
termination measure for the eviction loop. -/
def Q.ceilNat (q : Q) : Nat := (-(Int.fdiv (-q.num) (q.den : Int))).toNat

/-- Value of a fraction in `ℚ`; used to state properties, never to compute. -/
def Q.toRat (q : Q) : ℚ := (q.num : ℚ) / (q.den : ℚ)

/-- The literal `1.5` appearing in `Picture.prototype.bufferFreeingPriority`. -/
def Q.threeHalves : Q := ⟨3, 2⟩

/-- The literal `0.1` scaled by a count, `n * 0.1`, appearing in
`Picture.prototype.bufferFreeingPriority`. -/
def Q.tenths (n : Nat) : Q := ⟨(n : Int), 10⟩

/-- Exceptions and failure modes of the embedded JavaScript code. -/
inductive JsErr where
  /-- A member access on `undefined` (for instance indexing past the end of an
  array and then reading a property). -/
  | typeError
  /-- The event-line parser rejected a line (a parse error thrown by
  `PictureEvent.parse`, which `Picture.parse` does not catch). -/
  | parseError
  /-- The header line could not be interpreted (the source would compute `NaN`
  dimensions and fail to build a picture). -/
  | badHeader
  /-- The source's `while` loop would run forever from this state. -/
  | nonterm
  /-- Fuel exhaustion of the loop embedding (never reached from the fuel
  bounds used below). -/
  | fuel
  deriving DecidableEq, Repr

/-- Kind-specific payload of a picture event: the closed tagged variant of
glbrush event kinds.  Numeric stroke parameters are embedded as fractions,
colors as 8-bit channel values. -/
inductive Payload where
  | brush (c1 c2 c3 : Nat) (flow opacity radius softness : Q) (mode : Nat)
  | scatter (c1 c2 c3 : Nat) (flow opacity radius softness : Q) (mode : Nat)
  | gradient (c1 c2 c3 : Nat) (opacity : Q) (mode : Nat)
  | bufferAdd (bufferId : Nat) (hasAlpha : Bool) (cr cg cb ca : Nat)
      (opacity : Q) (insertionPt : Nat)
  | bufferRemove (bufferId : Nat)
  | bufferMove (movedId fromIndex toIndex : Nat)
  | bufferMerge (opacity : Q) (mergedId : Nat)
  | eventHide (hiddenSid hiddenSessionEventId : Nat)
  deriving DecidableEq, Repr

/-- Whether the payload is a buffer-merge payload. -/
def Payload.isMerge : Payload → Bool
  | .bufferMerge _ _ => true
  | _ => false

/-- Whether the payload is a buffer-remove payload. -/
def Payload.isBufRemove : Payload → Bool
  | .bufferRemove _ => true
  | _ => false

/-- Insertion point carried by a buffer-add payload (0 for other kinds, which
the source never reads). -/
def Payload.insertionPt : Payload → Nat
  | .bufferAdd _ _ _ _ _ _ _ ip => ip
  | _ => 0

/-- Replace the insertion point of a buffer-add payload; other kinds are kept
unchanged (the source writes a fresh property on the event object, which is
never read back for those kinds). -/
def Payload.setInsertionPt (p : Payload) (ip : Nat) : Payload :=
  match p with
  | .bufferAdd bid ha cr cg cb ca op _ => .bufferAdd bid ha cr cg cb ca op ip
  | q => q

/-- A picture event: session identity, undone flag and kind-specific payload
(spec 3, "Event"). -/
structure PEvent where
  sid : Nat
  sessionEventId : Nat
  undone : Bool
  payload : Payload
  deriving DecidableEq, Repr

/-- A picture buffer (one layer): its event log together with the bookkeeping
fields of `src/picture.js` (`undoStateBudget`, `undoStates.length`, `freed`,
`mergedTo`) and the per-state memory cost used by the budget accounting.
The bitmap contents themselves are outside the model. -/
structure PBuffer where
  id : Nat
  events : List PEvent
  insertionPoint : Nat
  undoStateBudget : Q
  numUndoStates : Nat
  stateMemoryBytes : Int
  undoStateInterval : Nat
  freed : Bool
  mergedTo : Option Nat
  deriving DecidableEq, Repr

/-- Modelled from the spec: a buffer is removed when its log holds a
non-undone buffer-remove event ("`removed`: derived from whether its
LayerRemove-type event (if any, undone-state aside) is active";
`PictureBuffer.prototype.isRemoved` itself is not under `src/`). -/
def PBuffer.isRemoved (b : PBuffer) : Bool :=
  b.events.any (fun e => !e.undone && e.payload.isBufRemove)

/-- Index of the first event with the given session identity in a log. -/
def eventIndexAux (events : List PEvent) (sid seid : Nat) : Option Nat :=
  match events with
  | [] => none
  | e :: rest =>
    if e.sid == sid && e.sessionEventId == seid then some 0
    else (eventIndexAux rest sid seid).map (· + 1)

/-- Modelled from the spec: log lookup by session identity
(`eventIndexBySessionId(sessionId, sessionEventId)`, an O(log-length) lookup
by identity; picture_buffer.js is not under `src/`). -/
def PBuffer.eventIndexBySessionId (b : PBuffer) (sid seid : Nat) : Option Nat :=
  eventIndexAux b.events sid seid

/-- Modelled from the spec: append an event at the end of the log
(`pushEvent(event)` of a buffer "appends at the end of the log"; bitmap
application and opportunistic checkpoint creation are outside the model). -/
def PBuffer.pushEventB (b : PBuffer) (e : PEvent) : PBuffer :=
  { b with events := b.events ++ [e] }

/-- Modelled from the spec: `undoEventAt(index)` marks the event at the index
as undone; undoing a merge event is refused when the caller disallows it
(`Picture.prototype.undoEventIndex` passes `allowUndoMerge` and treats a
falsy result as "couldn't undo").  Returns the marked event and the updated
buffer on success. -/
def PBuffer.undoEventIndexB (b : PBuffer) (i : Nat) (allowUndoMerge : Bool) :
    Option (PEvent × PBuffer) :=
  match b.events.get? i with
  | none => none
  | some e =>
    if e.payload.isMerge && !allowUndoMerge then none
    else
      let marked : PEvent := { e with undone := true }
      some (marked, { b with events := b.events.set i marked })

/-- Modelled from the spec: `redoEventAt(index)` marks the event at the index
as not undone (bitmap recomputation is outside the model). -/
def PBuffer.redoEventIndexB (b : PBuffer) (i : Nat) : PBuffer :=
  match b.events.get? i with
  | none => b
  | some e => { b with events := b.events.set i { e with undone := false } }

/-- Modelled from the spec: `removeEventAt(index)` permanently deletes the
event from the log (checkpoint invalidation is outside the model). -/
def PBuffer.removeEventIndexB (b : PBuffer) (i : Nat) : PBuffer :=
  { b with events := b.events.eraseIdx i }

/-- Modelled from the spec: `findLatest(sessionId, includeUndone)` returns the
index of the event with the highest `sessionEventId` belonging to the session
(restricted to non-undone events unless undone ones are included), or nothing
when the session has no such event.  Ties keep the earliest log position. -/
def PBuffer.findLatestB (events : List PEvent) (sid : Nat) (canBeUndone : Bool) :
    Option (Nat × Nat) :=
  match events with
  | [] => none
  | e :: rest =>
    let r := (PBuffer.findLatestB rest sid canBeUndone).map
      (fun p => (p.1 + 1, p.2))
    if e.sid == sid && (canBeUndone || !e.undone) then
      match r with
      | none => some (0, e.sessionEventId)
      | some (j, m) =>
        if e.sessionEventId ≥ m then some (0, e.sessionEventId) else some (j, m)
    else r

/-- Modelled from the spec: `setUndoStateBudget(n)` adjusts the checkpoint cap
and evicts checkpoints in excess of the new cap. -/
def PBuffer.setUndoStateBudgetB (b : PBuffer) (n : Q) : PBuffer :=
  { b with undoStateBudget := n, numUndoStates := min b.numUndoStates n.floorNat }

/-- Modelled from the spec: `getStateMemoryBytes()` is the memory cost of one
retained undo state; it is the abstract per-buffer field of the model. -/
def PBuffer.getStateMemoryBytes (b : PBuffer) : Int := b.stateMemoryBytes

/-- Modelled from the spec: `getMemoryNeededForReservingStates()` is the
memory needed to hold the buffer's live bitmap together with its retained
undo states; the exact formula lives in picture_buffer.js (not under `src/`)
and no claim depends on it. -/
def PBuffer.getMemoryNeededForReservingStates (b : PBuffer) : Int :=
  b.stateMemoryBytes * (1 + (b.numUndoStates : Int))

/-- State of a `Picture`: the active buffer stack, the merged-away buffers,
the active session cursor, the document dimensions and the memory counters
(`src/picture.js`, constructor). -/
structure PicState where
  buffers : List PBuffer
  mergedBuffers : List PBuffer
  activeSid : Nat
  activeSessionEventId : Nat
  width : Nat
  height : Nat
  memoryBudget : Int
  memoryUse : Int
  deriving DecidableEq, Repr

/-- Index of the buffer with the given id in a buffer list
(`Picture.prototype.findBufferIndex`; the source's `-1` is `none`).  The id is
an embedded JavaScript value and may be `-1` during parsing, hence the
integer argument. -/
def findBufferIndex (buffers : List PBuffer) (id : Int) : Option Nat :=
  match buffers with
  | [] => none
  | b :: rest =>
    if (b.id : Int) == id then some 0
    else (findBufferIndex rest id).map (· + 1)

/-- Find a buffer by id in the active stack, then among merged buffers
(`Picture.prototype.findBuffer`). -/
def PicState.findBuffer (s : PicState) (id : Int) : Option PBuffer :=
  match findBufferIndex s.buffers id with
  | some ind => s.buffers.get? ind
  | none =>
    match findBufferIndex s.mergedBuffers id with
    | some ind => s.mergedBuffers.get? ind
    | none => none

/-- JavaScript `splice(i, 0, x)` insertion: positions beyond the end append at
the end. -/
def jsInsertAt (l : List PBuffer) (i : Nat) (x : PBuffer) : List PBuffer :=
  l.insertIdx (min i l.length) x

/-- JavaScript `splice(i, 1)` removal where `i` may be the source's `-1`
(encoded `none`), which removes the last element. -/
def jsEraseAt (l : List PBuffer) (i : Option Nat) : List PBuffer :=
  match i with
  | some k => l.eraseIdx k
  | none => l.dropLast

/-- Replace the buffer with the given id, wherever it lives (active stack
first); embeds the source's in-place mutation of a buffer object, which is
referenced from exactly one of the two lists. -/
def PicState.setBuffer (s : PicState) (b : PBuffer) : PicState :=
  match findBufferIndex s.buffers (b.id : Int) with
  | some k => { s with buffers := s.buffers.set k b }
  | none =>
    match findBufferIndex s.mergedBuffers (b.id : Int) with
    | some k => { s with mergedBuffers := s.mergedBuffers.set k b }
    | none => s

end GB

namespace GB

/-- Priority for selecting a buffer when reducing the memory budget
(`Picture.prototype.bufferFreeingPriority`, src/picture.js:651-660):
`priority = budget`, plus `budget - 1.5` when the buffer is removed or merged
away and its budget exceeds 1, minus `undoStates.length * 0.1`. -/
def bufferFreeingPriority (buffer : PBuffer) : Q :=
  let priority := buffer.undoStateBudget
  let priority :=
    if (buffer.isRemoved || buffer.mergedTo.isSome) &&
        Q.blt (Q.ofInt 1) buffer.undoStateBudget then
      priority.add (buffer.undoStateBudget.sub Q.threeHalves)
    else priority
  priority.sub (Q.tenths buffer.numUndoStates)

/-- Average undo-state budget of active, non-removed buffers, defaulting to 5
(`Picture.prototype.averageUndoStateBudgetOfActiveBuffers`,
src/picture.js:711-725). -/
def averageUndoStateBudgetOfActiveBuffers (s : PicState) : Q :=
  let kept := s.buffers.filter (fun b => !b.isRemoved)
  if kept.length > 0 then
    (kept.foldl (fun acc b => acc.add b.undoStateBudget) (Q.ofInt 0)).divNat
      kept.length
  else Q.ofInt 5

/-- Free a buffer and account for the released memory
(`Picture.prototype.freeBuffer`, src/picture.js:733-738); no effect when the
buffer is already freed.  The released undo states are dropped (modelled from
the spec: freeing releases the live bitmap and the checkpoints). -/
def PicState.freeBuffer (s : PicState) (id : Nat) : PicState :=
  match s.findBuffer id with
  | none => s
  | some b =>
    if !b.freed then
      let s' := s.setBuffer { b with freed := true, numUndoStates := 0 }
      { s' with memoryUse := s'.memoryUse - b.getMemoryNeededForReservingStates }
    else s

/-- One scan of the active-buffer loop of
`Picture.prototype.stayWithinMemoryBudget` (src/picture.js:675-684): fold over
the stack accumulating whether freeing is possible and the selected
candidate.  The selection is `(inMerged, index)` of the buffer whose priority
strictly exceeds the best so far. -/
def swmbScanActive (buffers : List PBuffer) (i : Nat)
    (acc : Bool × Q × Option (Bool × Nat)) : Bool × Q × Option (Bool × Nat) :=
  match buffers with
  | [] => acc
  | b :: rest =>
    let acc :=
      if Q.blt (Q.ofInt 1) b.undoStateBudget && !b.freed then
        let priority := bufferFreeingPriority b
        if Q.blt acc.2.1 priority then (true, priority, some (false, i))
        else (true, acc.2.1, acc.2.2)
      else acc
    swmbScanActive rest (i + 1) acc

/-- One scan of the merged-buffer loop of
`Picture.prototype.stayWithinMemoryBudget` (src/picture.js:685-696).  The
source checks `!this.buffers[i].freed` here — indexing the ACTIVE stack with
the merged-list index `i` — so the scan consults the freed flag of the active
buffer at the same position and throws a `TypeError` when the active stack is
shorter than the merged list. -/
def swmbScanMerged (s : PicState) (merged : List PBuffer) (i : Nat)
    (acc : Bool × Q × Option (Bool × Nat)) :
    Except JsErr (Bool × Q × Option (Bool × Nat)) :=
  match merged with
  | [] => .ok acc
  | b :: rest =>
    if Q.blt (Q.ofInt 1) b.undoStateBudget then
      match s.buffers.get? i with
      | none => .error .typeError
      | some activeAtI =>
        let acc :=
          if !activeAtI.freed then
            let priority := bufferFreeingPriority b
            if Q.blt acc.2.1 priority then (true, priority, some (true, i))
            else (true, acc.2.1, acc.2.2)
          else acc
        swmbScanMerged s rest (i + 1) acc
    else swmbScanMerged s rest (i + 1) acc

/-- Decrement the selected buffer's budget by one and release one state's
memory (src/picture.js:697-701). -/
def swmbEvict (s : PicState) (sel : Bool × Nat) : PicState :=
  let bufs := if sel.1 then s.mergedBuffers else s.buffers
  match bufs.get? sel.2 with
  | none => s
  | some b =>
    let b' := b.setUndoStateBudgetB (b.undoStateBudget.sub (Q.ofInt 1))
    let bufs' := bufs.set sel.2 b'
    let s' := if sel.1 then { s with mergedBuffers := bufs' }
              else { s with buffers := bufs' }
    { s' with memoryUse := s'.memoryUse - b.getStateMemoryBytes }

/-- The eviction loop of `Picture.prototype.stayWithinMemoryBudget`
(src/picture.js:666-705), with explicit fuel.  Each productive iteration
reduces one selected buffer's budget by one; a state in which freeing is
still deemed possible but no buffer is selected does not change, so the
source's `while` loop would never terminate from it (`JsErr.nonterm`). -/
def swmbGo (fuel : Nat) (s : PicState) (requestedFreeBytes : Int) :
    Except JsErr PicState :=
  match fuel with
  | 0 => .error .fuel
  | fuel + 1 =>
    let available := s.memoryBudget - requestedFreeBytes
    let needToFree := s.memoryUse - available
    if needToFree > 0 then
      let acc0 : Bool × Q × Option (Bool × Nat) := (false, Q.ofInt 0, none)
      let accA := swmbScanActive s.buffers 0 acc0
      match swmbScanMerged s s.mergedBuffers 0 accA with
      | .error e => .error e
      | .ok (freeingPossible, _, selected) =>
        match selected with
        | some sel => swmbGo fuel (swmbEvict s sel) requestedFreeBytes
        | none => if freeingPossible then .error .nonterm else .ok s
    else .ok s

/-- Fuel bound for the eviction loop: every productive iteration lowers the
sum of budget ceilings by one. -/
def swmbFuel (s : PicState) : Nat :=
  ((s.buffers ++ s.mergedBuffers).foldl
    (fun acc b => acc + b.undoStateBudget.ceilNat) 0) + 2

/-- Attempt to stay within the memory budget
(`Picture.prototype.stayWithinMemoryBudget`, src/picture.js:666-705). -/
def stayWithinMemoryBudget (s : PicState) (requestedFreeBytes : Int) :
    Except JsErr PicState :=
  swmbGo (swmbFuel s) s requestedFreeBytes

/-- Regenerate a freed buffer and account for the reserved memory
(`Picture.prototype.regenerateBuffer`, src/picture.js:746-753); no effect when
the buffer is not freed. -/
def PicState.regenerateBuffer (s : PicState) (id : Nat) : Except JsErr PicState :=
  match s.findBuffer id with
  | none => .ok s
  | some b =>
    if b.freed then
      let memIncrease := b.getMemoryNeededForReservingStates
      match stayWithinMemoryBudget s memIncrease with
      | .error e => .error e
      | .ok s' =>
        match s'.findBuffer id with
        | none => .ok { s' with memoryUse := s'.memoryUse + memIncrease }
        | some bNow =>
          let s'' := s'.setBuffer { bNow with freed := false }
          .ok { s'' with memoryUse := s''.memoryUse + memIncrease }
    else .ok s

/-- Memory management after a remove event lands on a buffer
(`Picture.prototype.afterRemove`, src/picture.js:880-887): a removed buffer
with a cheap-to-regenerate log is freed. -/
def PicState.afterRemove (s : PicState) (id : Nat) : PicState :=
  match s.findBuffer id with
  | none => s
  | some b =>
    if b.events.length < b.undoStateInterval * 2 && b.isRemoved then
      s.freeBuffer id
    else s

/-- Move a buffer in the active stack
(`Picture.prototype.moveBufferInternal`, src/picture.js:1027-1033). -/
def PicState.moveBufferInternal (s : PicState) (fromIndex toIndex : Nat) :
    PicState :=
  match s.buffers.get? fromIndex with
  | none => s
  | some b =>
    { s with buffers := jsInsertAt (s.buffers.eraseIdx fromIndex) toIndex b }

end GB

namespace GB

/-- Write a buffer back at a position of the active stack or of the merged
set; embeds in-place mutation of `buffers[j]` for a known collection. -/
def PicState.writeAt (s : PicState) (inMerged : Bool) (j : Nat) (b : PBuffer) :
    PicState :=
  if inMerged then { s with mergedBuffers := s.mergedBuffers.set j b }
  else { s with buffers := s.buffers.set j b }

/-- Bytes of one bitmap state of this picture (width * height * 4); modelled
from the spec, the per-state cost used by the budget accounting. -/
def PicState.stateBytes (s : PicState) : Int := (s.width : Int) * s.height * 4

/-- Modelled from the spec: the checkpoint-creation interval of
picture_buffer.js (a fixed event-count threshold; its value is not under
`src/` and no claim depends on it). -/
def defaultUndoStateInterval : Nat := 16

/-- Create a single buffer and assign its undo-state budget
(`Picture.prototype.createBuffer`, src/picture.js:762-808).  The buffer object
construction is modelled from the spec: the log starts with the creation
event, the insertion point sits after it, and the buffer starts with no
historical undo states.  The budget assignment and memory accounting follow
the source: an undone creation event receives the average budget of active
buffers; otherwise memory is reserved for the current state, the eviction
loop is asked to free room for an average number of states and the budget is
the remaining room clamped to [0, 5]. -/
def Picture.createBuffer (s : PicState) (createEvent : PEvent) :
    Except JsErr (PBuffer × PicState) :=
  let buffer : PBuffer :=
    { id :=
        match createEvent.payload with
        | .bufferAdd bid _ _ _ _ _ _ _ => bid
        | _ => 0
      events := [createEvent]
      insertionPoint := 1
      undoStateBudget := Q.ofInt 0
      numUndoStates := 0
      stateMemoryBytes := s.stateBytes
      undoStateInterval := defaultUndoStateInterval
      freed := false
      mergedTo := none }
  if createEvent.undone then
    let avgBudget := averageUndoStateBudgetOfActiveBuffers s
    .ok (buffer.setUndoStateBudgetB avgBudget, s)
  else
    let s := { s with memoryUse := s.memoryUse + buffer.getStateMemoryBytes }
    let avgBudget := (averageUndoStateBudgetOfActiveBuffers s).floor
    match stayWithinMemoryBudget s (buffer.getStateMemoryBytes * avgBudget) with
    | .error e => .error e
    | .ok s =>
      let spaceLeftStates :=
        Int.fdiv (s.memoryBudget - s.memoryUse) buffer.getStateMemoryBytes
      let spaceLeftStates := if spaceLeftStates < 0 then 0 else spaceLeftStates
      let spaceLeftStates := if spaceLeftStates > 5 then 5 else spaceLeftStates
      let buffer := buffer.setUndoStateBudgetB (Q.ofInt spaceLeftStates)
      .ok (buffer,
        { s with memoryUse :=
            s.memoryUse + spaceLeftStates * buffer.getStateMemoryBytes })

/-- Add an event to the top of one of the picture's buffers
(`Picture.prototype.pushEvent`, src/picture.js:895-937).  `applyMove` is true
in normal operation; `Picture.parse` overrides `moveBufferInternal` with a
no-op while replaying, which this flag embeds.  The current-event rasterizer
short cut of the source (drawing-in-progress events) is outside the model.
When a non-undone merge event references a buffer that is not in the active
stack, the source computes `findBufferIndex(...) = -1`, makes the event's
merged-buffer reference `undefined` (`this.buffers[-1]`), drops the LAST
active buffer (`splice(-1, 1)`) and pushes `undefined` onto the merged list;
the model drops the last active buffer and pushes nothing. -/
def Picture.pushEvent (applyMove : Bool) (s : PicState) (targetBufferId : Int)
    (e : PEvent) : Except JsErr PicState :=
  match e.payload with
  | .bufferAdd _ _ _ _ _ _ _ _ =>
    match Picture.createBuffer s e with
    | .error er => .error er
    | .ok (buffer, s) => .ok { s with buffers := s.buffers ++ [buffer] }
  | .bufferRemove rid =>
    match findBufferIndex s.buffers rid with
    | none => .error .typeError
    | some k =>
      match s.buffers.get? k with
      | none => .error .typeError
      | some b =>
        let s := { s with buffers := s.buffers.set k (b.pushEventB e) }
        .ok (s.afterRemove rid)
  | .bufferMove movedId _ toIndex =>
    match findBufferIndex s.buffers movedId with
    | none => .error .typeError
    | some k =>
      match s.buffers.get? k with
      | none => .error .typeError
      | some b =>
        let s := { s with buffers := s.buffers.set k (b.pushEventB e) }
        if !e.undone && applyMove then .ok (s.moveBufferInternal k toIndex)
        else .ok s
  | .bufferMerge _ mergedId =>
    match s.findBuffer targetBufferId with
    | none => .error .typeError
    | some targetBuffer =>
      let mergedBufferIndex := findBufferIndex s.buffers mergedId
      let s := s.setBuffer (targetBuffer.pushEventB e)
      if !e.undone then
        match mergedBufferIndex with
        | some k =>
          match s.buffers.get? k with
          | none => .error .typeError
          | some mb =>
            .ok { s with
              buffers := s.buffers.eraseIdx k,
              mergedBuffers :=
                s.mergedBuffers ++ [{ mb with mergedTo := some targetBuffer.id }] }
        | none => .ok { s with buffers := s.buffers.dropLast }
      else .ok s
  | _ =>
    match s.findBuffer targetBufferId with
    | none => .error .typeError
    | some targetBuffer => .ok (s.setBuffer (targetBuffer.pushEventB e))

/-- Set the active session and move the session-event cursor past every event
the session already has, undone ones included
(`Picture.prototype.setActiveSession`, src/picture.js:424-431). -/
def scanLatest (bufs : List PBuffer) (sid : Nat) (canBeUndone : Bool) :
    Option (Nat × Nat × Nat) :=
  match bufs with
  | [] => none
  | b :: rest =>
    let r := (scanLatest rest sid canBeUndone).map
      (fun p => (p.1 + 1, p.2.1, p.2.2))
    match PBuffer.findLatestB b.events sid canBeUndone with
    | none => r
    | some (i, m) =>
      match r with
      | none => some (0, i, m)
      | some (j', i', m') =>
        if m ≥ m' then some (0, i, m) else some (j', i', m')

/-- Result of `Picture.prototype.findLatest`: event index, buffer index,
session event id and whether the buffer is in the merged set. -/
structure FindLatestRes where
  eventIndex : Nat
  bufferIndex : Nat
  sessionEventId : Nat
  inRemovedBuffer : Bool
  deriving DecidableEq, Repr

/-- Find the latest event of a session across active and merged buffers
(`Picture.prototype.findLatest`, src/picture.js:987-1019).  A merged buffer's
candidate displaces an active one only when its session event id is strictly
greater. -/
def Picture.findLatest (s : PicState) (sid : Nat) (canBeUndone : Bool) :
    Option FindLatestRes :=
  match scanLatest s.buffers sid canBeUndone,
      scanLatest s.mergedBuffers sid canBeUndone with
  | none, none => none
  | some (j, i, v), none => some ⟨i, j, v, false⟩
  | none, some (j, i, v) => some ⟨i, j, v, true⟩
  | some (j, i, v), some (j', i', v') =>
    if v' > v then some ⟨i', j', v', true⟩ else some ⟨i, j, v, false⟩

/-- Set the session with the given sid active
(`Picture.prototype.setActiveSession`, src/picture.js:424-431). -/
def Picture.setActiveSession (s : PicState) (sid : Nat) : PicState :=
  let s := { s with activeSid := sid, activeSessionEventId := 0 }
  match Picture.findLatest s sid true with
  | some latest =>
    { s with activeSessionEventId := latest.sessionEventId + 1 }
  | none => s

end GB

namespace GB

/-- Undo the event at the given index of the given buffer, handling events
that change the buffer stack (`Picture.prototype.undoEventIndex`,
src/picture.js:1083-1116).  Undoing a merge event from a merged buffer is
disallowed.  On an undone merge, the merged buffer is spliced back into the
active stack directly above the surviving buffer's current position and
removed from the merged set (its merged-target mark is cleared, modelled from
the spec). -/
def Picture.undoEventIndex (s : PicState) (buffer : PBuffer) (eventIndex : Nat)
    (isBufferMerged : Bool) : Except JsErr (Option PEvent × PicState) :=
  let allowUndoMerge := !isBufferMerged
  match buffer.undoEventIndexB eventIndex allowUndoMerge with
  | none => .ok (none, s)
  | some (undoneEv, b') =>
    let s := s.setBuffer b'
    if eventIndex == 0 then
      .ok (some undoneEv, s.freeBuffer buffer.id)
    else
      match undoneEv.payload with
      | .bufferRemove _ =>
        if !b'.isRemoved then
          match s.regenerateBuffer buffer.id with
          | .error e => .error e
          | .ok s' => .ok (some undoneEv, s')
        else .ok (some undoneEv, s)
      | .bufferMerge _ mergedId =>
        let bufferIndex := findBufferIndex s.buffers buffer.id
        let insPos := (bufferIndex.map (· + 1)).getD 0
        let s :=
          match findBufferIndex s.mergedBuffers mergedId with
          | some m =>
            match s.mergedBuffers.get? m with
            | some mb =>
              { s with
                buffers := jsInsertAt s.buffers insPos { mb with mergedTo := none },
                mergedBuffers := s.mergedBuffers.eraseIdx m }
            | none => s
          | none =>
            -- The merged buffer is not in the merged set: the source would
            -- splice in the event's aliased buffer object and remove the last
            -- merged buffer (`splice(-1, 1)`); unreachable from the states
            -- the claims evaluate.
            { s with mergedBuffers := s.mergedBuffers.dropLast }
        .ok (some undoneEv, s)
      | .bufferMove _ fromIndex _ =>
        if !isBufferMerged then
          match findBufferIndex s.buffers buffer.id with
          | some undoneIndex =>
            let toIndex := min (s.buffers.length - 1) fromIndex
            .ok (some undoneEv, s.moveBufferInternal undoneIndex toIndex)
          | none => .ok (some undoneEv, s)
        else .ok (some undoneEv, s)
      | _ => .ok (some undoneEv, s)

/-- Undo the latest non-undone event of the active session
(`Picture.prototype.undoLatest`, src/picture.js:1043-1071).  With the
keep-last-buffer guard (the default), returns null without undoing when the
latest event sits at index 0 of an active-stack buffer and exactly one
non-removed buffer remains in the active stack. -/
def Picture.undoLatest (s : PicState) (keepLastBuffer : Bool) :
    Except JsErr (Option PEvent × PicState) :=
  match Picture.findLatest s s.activeSid false with
  | none => .ok (none, s)
  | some latest =>
    if latest.inRemovedBuffer then
      match s.mergedBuffers.get? latest.bufferIndex with
      | none => .error .typeError
      | some buffer => Picture.undoEventIndex s buffer latest.eventIndex true
    else
      match s.buffers.get? latest.bufferIndex with
      | none => .error .typeError
      | some buffer =>
        if keepLastBuffer && latest.eventIndex == 0 &&
            ((s.buffers.countP (fun b => !b.isRemoved)) == 1) then
          .ok (none, s)
        else Picture.undoEventIndex s buffer latest.eventIndex false

/-- Topmost buffer of a list holding the identified event, with the event's
log index; embeds the backwards `while (j >= 1) --j` search loops of
src/picture.js:1140-1155, 1178-1213 and 1237-1259, whose first hit from the
top returns. -/
def findTopmost (bufs : List PBuffer) (sid seid : Nat) : Option (Nat × Nat) :=
  match bufs with
  | [] => none
  | b :: rest =>
    match findTopmost rest sid seid with
    | some (j, i) => some (j + 1, i)
    | none => (b.eventIndexBySessionId sid seid).map (fun i => (0, i))

/-- Undo an identified event found in one buffer collection
(`Picture.prototype.undoEventFromBuffers`, src/picture.js:1140-1155).  An
already-undone hit is returned without change. -/
def Picture.undoEventFromBuffers (s : PicState) (inMerged : Bool)
    (sid seid : Nat) : Except JsErr (Option PEvent × PicState) :=
  let bufs := if inMerged then s.mergedBuffers else s.buffers
  match findTopmost bufs sid seid with
  | none => .ok (none, s)
  | some (j, i) =>
    match bufs.get? j with
    | none => .error .typeError
    | some buffer =>
      match buffer.events.get? i with
      | none => .error .typeError
      | some e =>
        if !e.undone then Picture.undoEventIndex s buffer i inMerged
        else .ok (some e, s)

/-- Undo the identified event (`Picture.prototype.undoEventSessionId`,
src/picture.js:1124-1130): search the active stack, then the merged set. -/
def Picture.undoEventSessionId (s : PicState) (sid seid : Nat) :
    Except JsErr (Option PEvent × PicState) :=
  match Picture.undoEventFromBuffers s false sid seid with
  | .error e => .error e
  | .ok (some ev, s') => .ok (some ev, s')
  | .ok (none, s') => Picture.undoEventFromBuffers s' true sid seid

/-- Redo an identified event found in one buffer collection by marking it not
undone (`Picture.prototype.redoEventFromBuffers`, src/picture.js:1178-1213).
Returns true whenever the event is found, whether or not a redo happened. -/
def Picture.redoEventFromBuffers (s : PicState) (inMerged : Bool)
    (sid seid : Nat) : Except JsErr (Bool × PicState) :=
  let bufs := if inMerged then s.mergedBuffers else s.buffers
  match findTopmost bufs sid seid with
  | none => .ok (false, s)
  | some (j, i) =>
    match bufs.get? j with
    | none => .error .typeError
    | some buffer =>
      match buffer.events.get? i with
      | none => .error .typeError
      | some e =>
        if e.undone then
          match e.payload with
          | .bufferMerge _ mergedId =>
            let mergedBufferIndex := findBufferIndex s.buffers mergedId
            let s := s.writeAt inMerged j (buffer.redoEventIndexB i)
            match mergedBufferIndex with
            | some k =>
              match s.buffers.get? k with
              | none => .error .typeError
              | some mb =>
                .ok (true, { s with
                  buffers := s.buffers.eraseIdx k,
                  mergedBuffers := s.mergedBuffers ++
                    [{ mb with mergedTo := some buffer.id }] })
            | none =>
              -- `splice(-1, 1)` on a not-found index: the source removes the
              -- last active buffer and pushes the event's aliased object.
              .ok (true, { s with buffers := s.buffers.dropLast })
          | .bufferRemove _ =>
            let s := s.writeAt inMerged j (buffer.redoEventIndexB i)
            .ok (true, s.afterRemove buffer.id)
          | _ =>
            if i == 0 then
              match s.regenerateBuffer buffer.id with
              | .error er => .error er
              | .ok s' =>
                let bufs' := if inMerged then s'.mergedBuffers else s'.buffers
                match bufs'.get? j with
                | none => .error .typeError
                | some bj => .ok (true, s'.writeAt inMerged j (bj.redoEventIndexB i))
            else .ok (true, s.writeAt inMerged j (buffer.redoEventIndexB i))
        else .ok (true, s)

/-- Redo the identified event (`Picture.prototype.redoEventSessionId`,
src/picture.js:1163-1168). -/
def Picture.redoEventSessionId (s : PicState) (sid seid : Nat) :
    Except JsErr (Bool × PicState) :=
  match Picture.redoEventFromBuffers s false sid seid with
  | .error e => .error e
  | .ok (true, s') => .ok (true, s')
  | .ok (false, s') => Picture.redoEventFromBuffers s' true sid seid

/-- Remove an identified event entirely from one buffer collection
(`Picture.prototype.removeEventFromBuffers`, src/picture.js:1237-1259): a
non-undone hit is first undone (merge events of merged buffers refuse and
fail the removal), then the event is deleted from the log of the buffer at
the found position. -/
def Picture.removeEventFromBuffers (s : PicState) (inMerged : Bool)
    (sid seid : Nat) : Except JsErr (Bool × PicState) :=
  let bufs := if inMerged then s.mergedBuffers else s.buffers
  match findTopmost bufs sid seid with
  | none => .ok (false, s)
  | some (j, i) =>
    match bufs.get? j with
    | none => .error .typeError
    | some buffer =>
      match buffer.events.get? i with
      | none => .error .typeError
      | some e =>
        if !e.undone then
          match Picture.undoEventIndex s buffer i inMerged with
          | .error er => .error er
          | .ok (some _, s') =>
            let bufs' := if inMerged then s'.mergedBuffers else s'.buffers
            match bufs'.get? j with
            | none => .error .typeError
            | some bj =>
              .ok (true, s'.writeAt inMerged j (bj.removeEventIndexB i))
          | .ok (none, s') => .ok (false, s')
        else .ok (true, s.writeAt inMerged j (buffer.removeEventIndexB i))

/-- Remove the identified event (`Picture.prototype.removeEventSessionId`,
src/picture.js:1221-1227). -/
def Picture.removeEventSessionId (s : PicState) (sid seid : Nat) :
    Except JsErr (Bool × PicState) :=
  match Picture.removeEventFromBuffers s false sid seid with
  | .error e => .error e
  | .ok (true, s') => .ok (true, s')
  | .ok (false, s') => Picture.removeEventFromBuffers s' true sid seid

end GB

namespace GB

/-- Create a brush event with the active session identity and advance the
session-event cursor (`Picture.prototype.createBrushEvent`,
src/picture.js:449-455). -/
def Picture.createBrushEvent (s : PicState) (c1 c2 c3 : Nat)
    (flow opacity radius softness : Q) (mode : Nat) : PEvent × PicState :=
  (⟨s.activeSid, s.activeSessionEventId, false,
    .brush c1 c2 c3 flow opacity radius softness mode⟩,
   { s with activeSessionEventId := s.activeSessionEventId + 1 })

/-- Create a scatter event (`Picture.prototype.createScatterEvent`,
src/picture.js:471-478). -/
def Picture.createScatterEvent (s : PicState) (c1 c2 c3 : Nat)
    (flow opacity radius softness : Q) (mode : Nat) : PEvent × PicState :=
  (⟨s.activeSid, s.activeSessionEventId, false,
    .scatter c1 c2 c3 flow opacity radius softness mode⟩,
   { s with activeSessionEventId := s.activeSessionEventId + 1 })

/-- Create a gradient event (`Picture.prototype.createGradientEvent`,
src/picture.js:490-495). -/
def Picture.createGradientEvent (s : PicState) (c1 c2 c3 : Nat) (opacity : Q)
    (mode : Nat) : PEvent × PicState :=
  (⟨s.activeSid, s.activeSessionEventId, false, .gradient c1 c2 c3 opacity mode⟩,
   { s with activeSessionEventId := s.activeSessionEventId + 1 })

/-- Create a buffer-add event (`Picture.prototype.createBufferAddEvent`,
src/picture.js:506-512); the source passes opacity 1.0 and insertion point 0
to the event constructor. -/
def Picture.createBufferAddEvent (s : PicState) (id : Nat) (hasAlpha : Bool)
    (cr cg cb ca : Nat) : PEvent × PicState :=
  (⟨s.activeSid, s.activeSessionEventId, false,
    .bufferAdd id hasAlpha cr cg cb ca (Q.ofInt 1) 0⟩,
   { s with activeSessionEventId := s.activeSessionEventId + 1 })

/-- Create a buffer-remove event (`Picture.prototype.createBufferRemoveEvent`,
src/picture.js:520-527). -/
def Picture.createBufferRemoveEvent (s : PicState) (id : Nat) :
    PEvent × PicState :=
  (⟨s.activeSid, s.activeSessionEventId, false, .bufferRemove id⟩,
   { s with activeSessionEventId := s.activeSessionEventId + 1 })

/-- Create a buffer-move event (`Picture.prototype.createBufferMoveEvent`,
src/picture.js:536-544); the from-index is the moved buffer's current stack
index (the source's TODO asserts it is found, so the not-found default is
never taken on claim-relevant states). -/
def Picture.createBufferMoveEvent (s : PicState) (movedId toIndex : Nat) :
    PEvent × PicState :=
  let fromIndex := (findBufferIndex s.buffers movedId).getD 0
  (⟨s.activeSid, s.activeSessionEventId, false,
    .bufferMove movedId fromIndex toIndex⟩,
   { s with activeSessionEventId := s.activeSessionEventId + 1 })

/-- Create a merge event for the buffer at the given stack index
(`Picture.prototype.createMergeEvent`, src/picture.js:554-561); the source's
TODO asserts the index is valid, so the out-of-range default is never taken
on claim-relevant states. -/
def Picture.createMergeEvent (s : PicState) (mergedBufferIndex : Nat)
    (opacity : Q) : PEvent × PicState :=
  let mergedId := ((s.buffers.get? mergedBufferIndex).map (fun b => b.id)).getD 0
  (⟨s.activeSid, s.activeSessionEventId, false, .bufferMerge opacity mergedId⟩,
   { s with activeSessionEventId := s.activeSessionEventId + 1 })

/-- Create an event-hide event (`Picture.prototype.createEventHideEvent`,
src/picture.js:570-576). -/
def Picture.createEventHideEvent (s : PicState) (hiddenSid hiddenSeid : Nat) :
    PEvent × PicState :=
  (⟨s.activeSid, s.activeSessionEventId, false, .eventHide hiddenSid hiddenSeid⟩,
   { s with activeSessionEventId := s.activeSessionEventId + 1 })

/-- Add a buffer to the top of the stack (`Picture.prototype.addBuffer`,
src/picture.js:118-121). -/
def Picture.addBuffer (s : PicState) (id : Nat) (cr cg cb ca : Nat)
    (hasAlpha : Bool) : Except JsErr PicState :=
  let (addEvent, s) := Picture.createBufferAddEvent s id hasAlpha cr cg cb ca
  Picture.pushEvent true s (id : Int) addEvent

/-- Mark a buffer as removed (`Picture.prototype.removeBuffer`,
src/picture.js:128-131). -/
def Picture.removeBuffer (s : PicState) (id : Nat) : Except JsErr PicState :=
  let (removeEvent, s) := Picture.createBufferRemoveEvent s id
  Picture.pushEvent true s (id : Int) removeEvent

/-- Move a buffer to the given stack index (`Picture.prototype.moveBuffer`,
src/picture.js:140-143). -/
def Picture.moveBuffer (s : PicState) (movedId toIndex : Nat) :
    Except JsErr PicState :=
  let (moveEvent, s) := Picture.createBufferMoveEvent s movedId toIndex
  Picture.pushEvent true s (movedId : Int) moveEvent

/-- Fresh picture state of the given dimensions (the `Picture` constructor,
src/picture.js:14-67, in canvas mode with bitmap scale 1): empty stacks, a
256 MiB budget, and initial memory use covering the compositing bitmap
(`width * height * 4` bytes); the two canvas rasterizers report 0 bytes
(`Rasterizer.prototype.getMemoryBytes`, src/rasterize.js:243-245). -/
def initPicture (width height : Nat) : PicState :=
  { buffers := []
    mergedBuffers := []
    activeSid := 0
    activeSessionEventId := 0
    width := width
    height := height
    memoryBudget := 256 * 1024 * 1024
    memoryUse := (width : Int) * height * 4 }

end GB

namespace GB

/-- Token of one line of the serialization format: a word, an integer, or a
fraction.  A line is a list of tokens (the source joins tokens with spaces
into a text line and splits on spaces when parsing; that glue is invertible
and outside the model). -/
inductive Tok where
  | w (word : String)
  | n (i : Int)
  | q (r : Q)
  deriving DecidableEq, Repr

/-- Modelled from the spec: serialization of one event as one self-describing
line — kind, session identity, undone flag, then the kind-specific
parameters (`PictureEvent.prototype.serialize` is not under `src/`; the spec
fixes "one line per event, each line self-describing its kind, session
identity, undone flag, and kind-specific parameters"). -/
def serializeEvent (e : PEvent) : List Tok :=
  let head : List Tok :=
    [Tok.n (e.sid : Int), Tok.n (e.sessionEventId : Int),
     Tok.n (if e.undone then 1 else 0)]
  match e.payload with
  | .brush c1 c2 c3 flow opacity radius softness mode =>
    Tok.w "brush" :: head ++
      [Tok.n c1, Tok.n c2, Tok.n c3, Tok.q flow, Tok.q opacity, Tok.q radius,
       Tok.q softness, Tok.n mode]
  | .scatter c1 c2 c3 flow opacity radius softness mode =>
    Tok.w "scatter" :: head ++
      [Tok.n c1, Tok.n c2, Tok.n c3, Tok.q flow, Tok.q opacity, Tok.q radius,
       Tok.q softness, Tok.n mode]
  | .gradient c1 c2 c3 opacity mode =>
    Tok.w "gradient" :: head ++
      [Tok.n c1, Tok.n c2, Tok.n c3, Tok.q opacity, Tok.n mode]
  | .bufferAdd bid hasAlpha cr cg cb ca opacity ip =>
    Tok.w "bufferAdd" :: head ++
      [Tok.n bid, Tok.n (if hasAlpha then 1 else 0), Tok.n cr, Tok.n cg,
       Tok.n cb, Tok.n ca, Tok.q opacity, Tok.n ip]
  | .bufferRemove bid =>
    Tok.w "bufferRemove" :: head ++ [Tok.n bid]
  | .bufferMove movedId fromIndex toIndex =>
    Tok.w "bufferMove" :: head ++
      [Tok.n movedId, Tok.n fromIndex, Tok.n toIndex]
  | .bufferMerge opacity mergedId =>
    Tok.w "bufferMerge" :: head ++ [Tok.q opacity, Tok.n mergedId]
  | .eventHide hiddenSid hiddenSeid =>
    Tok.w "eventHide" :: head ++ [Tok.n hiddenSid, Tok.n hiddenSeid]

/-- Read a natural number token. -/
def natTok : Tok → Option Nat
  | .n i => if i < 0 then none else some i.toNat
  | _ => none

/-- Read a boolean token (0 or 1, the serialized undone flag). -/
def boolTok : Tok → Option Bool
  | .n 0 => some false
  | .n 1 => some true
  | _ => none

/-- Read a fraction token. -/
def qTok : Tok → Option Q
  | .q r => some r
  | _ => none

/-- Modelled from the spec: parse one event line (`PictureEvent.parse` is not
under `src/`); a line that does not match a supported kind is a parse error,
which the source throws and `Picture.parse` does not catch. -/
def parseEventTokens (line : List Tok) : Option PEvent :=
  match line with
  | [Tok.w "brush", sid, seid, u, c1, c2, c3, flow, opacity, radius, softness,
      mode] =>
    match natTok sid, natTok seid, boolTok u, natTok c1, natTok c2, natTok c3,
        qTok flow, qTok opacity, qTok radius, qTok softness, natTok mode with
    | some sid, some seid, some u, some c1, some c2, some c3, some fl, some op,
        some ra, some so, some mo =>
      some ⟨sid, seid, u, .brush c1 c2 c3 fl op ra so mo⟩
    | _, _, _, _, _, _, _, _, _, _, _ => none
  | [Tok.w "scatter", sid, seid, u, c1, c2, c3, flow, opacity, radius,
      softness, mode] =>
    match natTok sid, natTok seid, boolTok u, natTok c1, natTok c2, natTok c3,
        qTok flow, qTok opacity, qTok radius, qTok softness, natTok mode with
    | some sid, some seid, some u, some c1, some c2, some c3, some fl, some op,
        some ra, some so, some mo =>
      some ⟨sid, seid, u, .scatter c1 c2 c3 fl op ra so mo⟩
    | _, _, _, _, _, _, _, _, _, _, _ => none
  | [Tok.w "gradient", sid, seid, u, c1, c2, c3, opacity, mode] =>
    match natTok sid, natTok seid, boolTok u, natTok c1, natTok c2, natTok c3,
        qTok opacity, natTok mode with
    | some sid, some seid, some u, some c1, some c2, some c3, some op, some mo =>
      some ⟨sid, seid, u, .gradient c1 c2 c3 op mo⟩
    | _, _, _, _, _, _, _, _ => none
  | [Tok.w "bufferAdd", sid, seid, u, bid, ha, cr, cg, cb, ca, opacity, ip] =>
    match natTok sid, natTok seid, boolTok u, natTok bid, boolTok ha, natTok cr,
        natTok cg, natTok cb, natTok ca, qTok opacity, natTok ip with
    | some sid, some seid, some u, some bid, some ha, some cr, some cg, some cb,
        some ca, some op, some ip =>
      some ⟨sid, seid, u, .bufferAdd bid ha cr cg cb ca op ip⟩
    | _, _, _, _, _, _, _, _, _, _, _ => none
  | [Tok.w "bufferRemove", sid, seid, u, bid] =>
    match natTok sid, natTok seid, boolTok u, natTok bid with
    | some sid, some seid, some u, some bid =>
      some ⟨sid, seid, u, .bufferRemove bid⟩
    | _, _, _, _ => none
  | [Tok.w "bufferMove", sid, seid, u, movedId, fromIndex, toIndex] =>
    match natTok sid, natTok seid, boolTok u, natTok movedId, natTok fromIndex,
        natTok toIndex with
    | some sid, some seid, some u, some mid, some fi, some ti =>
      some ⟨sid, seid, u, .bufferMove mid fi ti⟩
    | _, _, _, _, _, _ => none
  | [Tok.w "bufferMerge", sid, seid, u, opacity, mergedId] =>
    match natTok sid, natTok seid, boolTok u, qTok opacity, natTok mergedId with
    | some sid, some seid, some u, some op, some mid =>
      some ⟨sid, seid, u, .bufferMerge op mid⟩
    | _, _, _, _, _ => none
  | [Tok.w "eventHide", sid, seid, u, hiddenSid, hiddenSeid] =>
    match natTok sid, natTok seid, boolTok u, natTok hiddenSid,
        natTok hiddenSeid with
    | some sid, some seid, some u, some hs, some he =>
      some ⟨sid, seid, u, .eventHide hs he⟩
    | _, _, _, _, _ => none
  | _ => none

/-- Header line of a serialization: `picture version <v> <width> <height>`
(src/picture.js:385-386, with `Picture.formatVersion = 1`). -/
def headerTokens (s : PicState) : List Tok :=
  [Tok.w "picture", Tok.w "version", Tok.n 1, Tok.n (s.width : Int),
   Tok.n (s.height : Int)]

/-- Events of a buffer as serialized: the source first copies the buffer's
insertion point into its creation event (src/picture.js:391, 398). -/
def serTargetEvents (b : PBuffer) : List PEvent :=
  match b.events with
  | [] => []
  | e0 :: rest =>
    { e0 with payload := e0.payload.setInsertionPt b.insertionPoint } :: rest

/-- Serialization of a picture as a list of lines
(`Picture.prototype.serialize`, src/picture.js:383-404): the header line,
then every event of every merged buffer, then every event of every active
buffer, pushed one line per event in log order. -/
def serializeLines (s : PicState) : List (List Tok) :=
  let ser := [headerTokens s]
  let ser := s.mergedBuffers.foldl
    (fun acc b =>
      (serTargetEvents b).foldl (fun a e => a ++ [serializeEvent e]) acc) ser
  s.buffers.foldl
    (fun acc b =>
      (serTargetEvents b).foldl (fun a e => a ++ [serializeEvent e]) acc) ser

/-- Result of `Picture.parse`: the picture together with the passthrough
metadata lines (the `metadata` marker line and everything after it). -/
structure ParseResult where
  picture : PicState
  metadata : List (List Tok)
  deriving DecidableEq, Repr

/-- Interpret the header line (src/picture.js:301-312): when the second token
is not the word `version`, the legacy form `<ignored> <width> <height>` is
assumed; a header whose number positions do not hold numbers leaves the
source with `NaN` dimensions and no picture. -/
def parseHeaderTokens (line : List Tok) : Option (Nat × Nat × Nat) :=
  match line.get? 1 with
  | some (Tok.w "version") =>
    match line.get? 2, line.get? 3, line.get? 4 with
    | some v, some wd, some ht =>
      match natTok v, natTok wd, natTok ht with
      | some v, some wd, some ht => some (v, wd, ht)
      | _, _, _ => none
    | _, _, _ => none
  | some wd =>
    match line.get? 2 with
    | some ht =>
      match natTok wd, natTok ht with
      | some wd, some ht => some (0, wd, ht)
      | _, _ => none
    | none => none
  | none => none

/-- The event-replay loop of `Picture.parse` (src/picture.js:320-333): each
line before the `metadata` marker is parsed and pushed onto the buffer whose
id was read off the top of the stack after the previous push; buffer-move
events are not re-applied (`moveBufferInternal` is overridden with a no-op
while parsing). -/
def parseLoop (lines : List (List Tok)) (s : PicState) (currentId : Int) :
    Except JsErr (PicState × List (List Tok)) :=
  match lines with
  | [] => .ok (s, [])
  | line :: rest =>
    if line = [Tok.w "metadata"] then .ok (s, line :: rest)
    else
      match parseEventTokens line with
      | none => .error .parseError
      | some e =>
        match Picture.pushEvent false s currentId e with
        | .error er => .error er
        | .ok s' =>
          match s'.buffers.getLast? with
          | none => .error .typeError
          | some lastB => parseLoop rest s' (lastB.id : Int)

/-- Restore each buffer's insertion point from its creation event after
parsing (src/picture.js:338-344). -/
def restoreInsertionPoints (s : PicState) : PicState :=
  let restore := fun (b : PBuffer) =>
    match b.events.head? with
    | some e0 => { b with insertionPoint := e0.payload.insertionPt }
    | none => b
  { s with buffers := s.buffers.map restore,
           mergedBuffers := s.mergedBuffers.map restore }

/-- Parse a serialization into a picture (`Picture.parse`,
src/picture.js:298-348).  Any exception thrown while interpreting the header
or replaying an event line aborts the whole parse: no partial picture is
returned. -/
def Picture.parse (lines : List (List Tok)) : Except JsErr ParseResult :=
  match lines with
  | [] => .error .badHeader
  | header :: rest =>
    match parseHeaderTokens header with
    | none => .error .badHeader
    | some (_version, wd, ht) =>
      match parseLoop rest (initPicture wd ht) (-1) with
      | .error e => .error e
      | .ok (s, metadata) => .ok ⟨restoreInsertionPoints s, metadata⟩

/-- State exercising the merged-buffer scan of `stayWithinMemoryBudget`: the
single active buffer is freed and at budget one, while the merged buffer has
budget two and is not freed, with the memory use far above the budget. -/
def c1s1 : PicState :=
  ⟨[⟨0, [], 1, ⟨1, 1⟩, 0, 4, 1, true, none⟩],
   [⟨1, [], 1, ⟨2, 1⟩, 1, 4, 1, false, some 0⟩],
   0, 0, 4, 4, 0, 100⟩

/-- State whose merged list is longer than its active stack, reaching the
out-of-range read in the merged-buffer scan of `stayWithinMemoryBudget`. -/
def c1s2 : PicState :=
  ⟨[], [⟨1, [], 1, ⟨2, 1⟩, 1, 4, 1, false, some 0⟩], 0, 0, 4, 4, 0, 100⟩

/-- A document built from supported operations only: three layers, two
merges, both merges undone and then redone.  The redos append to the merged
list in the opposite of the original merge order. -/
def c2build : Except JsErr PicState := do
  let s0 := Picture.setActiveSession (initPicture 4 4) 1
  let s1 ← Picture.addBuffer s0 10 0 0 0 0 true
  let s2 ← Picture.addBuffer s1 11 0 0 0 0 true
  let s3 ← Picture.addBuffer s2 12 0 0 0 0 true
  let (m1, s4) := Picture.createMergeEvent s3 2 (Q.ofInt 1)
  let s5 ← Picture.pushEvent true s4 (11 : Int) m1
  let (m2, s6) := Picture.createMergeEvent s5 1 (Q.ofInt 1)
  let s7 ← Picture.pushEvent true s6 (10 : Int) m2
  let s8 := (← Picture.undoEventSessionId s7 1 4).2
  let s9 := (← Picture.undoEventSessionId s8 1 3).2
  let s10 := (← Picture.redoEventSessionId s9 1 4).2
  let s11 := (← Picture.redoEventSessionId s10 1 3).2
  pure s11

/-- Two layers, the second merged into the first: the state before any
buffer move. -/
def c3runPre : Except JsErr PicState := do
  let s0 := Picture.setActiveSession (initPicture 4 4) 1
  let s1 ← Picture.addBuffer s0 10 0 0 0 0 true
  Picture.addBuffer s1 11 0 0 0 0 true

/-- Continue `c3runPre`: merge layer 11 into layer 10, add layer 12 and move
layer 10 to stack index 1, so that undoing the merge must splice layer 11
back relative to layer 10's NEW position. -/
def c3run : Except JsErr PicState := do
  let s2 ← c3runPre
  let (mev, s3) := Picture.createMergeEvent s2 1 (Q.ofInt 1)
  let s4 ← Picture.pushEvent true s3 (10 : Int) mev
  let s5 ← Picture.addBuffer s4 12 0 0 0 0 true
  Picture.moveBuffer s5 10 1

/-- Creation event of the buffer used as the merge-undo input below. -/
def c3eAdd : PEvent := ⟨1, 0, false, .bufferAdd 7 true 0 0 0 0 (Q.ofInt 1) 0⟩

/-- A merge event that merged buffer 8 into buffer 7. -/
def c3eMerge : PEvent := ⟨1, 1, false, .bufferMerge (Q.ofInt 1) 8⟩

/-- Active buffer holding the merge event to be undone. -/
def c3bufW : PBuffer := ⟨7, [c3eAdd, c3eMerge], 1, Q.ofInt 1, 0, 0, 1, false, none⟩

/-- The merged-away buffer 8 to be spliced back on undo. -/
def c3mW : PBuffer := ⟨8, [], 1, Q.ofInt 1, 0, 0, 1, false, some 7⟩

/-- A state with one active buffer and one merged-away buffer. -/
def c3sW : PicState := ⟨[c3bufW], [c3mW], 1, 2, 4, 4, 100, 0⟩

/-- Creation event of the only buffer of `c4sW`. -/
def c4eW : PEvent := ⟨1, 0, false, .bufferAdd 7 true 0 0 0 0 (Q.ofInt 1) 0⟩

/-- The only buffer of `c4sW`, holding just its creation event. -/
def c4bW : PBuffer := ⟨7, [c4eW], 1, Q.ofInt 1, 0, 0, 1, false, none⟩

/-- A one-buffer document whose only event is the creation event of its sole
non-removed buffer. -/
def c4sW : PicState := ⟨[c4bW], [], 1, 1, 4, 4, 100, 0⟩

/-- A buffer created by session 1 and then removed by session 2: session 1's
only event is this buffer's creation event. -/
def c4csA : PBuffer :=
  ⟨1, [⟨1, 0, false, .bufferAdd 1 true 0 0 0 0 (Q.ofInt 1) 0⟩,
       ⟨2, 0, false, .bufferRemove 1⟩], 1, Q.ofInt 1, 0, 0, 1, false, none⟩

/-- A second buffer created by session 2; the only non-removed buffer. -/
def c4csB : PBuffer :=
  ⟨2, [⟨2, 1, false, .bufferAdd 2 true 0 0 0 0 (Q.ofInt 1) 0⟩], 1,
   Q.ofInt 1, 0, 0, 1, false, none⟩

/-- A document where the active session's latest event is the creation event
of the REMOVED buffer `c4csA`, while `c4csB` is the only non-removed one. -/
def c4cs : PicState := ⟨[c4csA, c4csB], [], 1, 1, 4, 4, 100, 0⟩

/-- An event with session identity (1, 0). -/
def c5eW : PEvent := ⟨1, 0, false, .eventHide 0 0⟩

/-- A buffer holding only `c5eW`. -/
def c5bW : PBuffer := ⟨4, [c5eW], 1, Q.ofInt 1, 0, 0, 1, false, none⟩

/-- A document in which session identity (2, 9) matches no event. -/
def c5sW : PicState := ⟨[c5bW], [], 1, 1, 4, 4, 100, 0⟩

/-- A removed buffer with the fractional budget 6/5: greater than one, but
the removal bonus 6/5 - 3/2 is negative. -/
def c7b1 : PBuffer :=
  ⟨0, [⟨1, 0, false, .bufferRemove 0⟩], 1, ⟨6, 5⟩, 0, 0, 1, false, none⟩

/-- A live buffer with the same budget 6/5 and the same state count. -/
def c7b2 : PBuffer := ⟨1, [], 1, ⟨6, 5⟩, 0, 0, 1, false, none⟩

/-- A removed buffer with budget two, strictly above 3/2. -/
def c7w1 : PBuffer :=
  ⟨2, [⟨1, 0, false, .bufferRemove 2⟩], 1, ⟨2, 1⟩, 0, 0, 1, false, none⟩

/-- A live buffer with budget two and the same state count as `c7w1`. -/
def c7w2 : PBuffer := ⟨3, [], 1, ⟨2, 1⟩, 0, 0, 1, false, none⟩

/-- An event of session 7 with session event id 5. -/
def c9eW : PEvent := ⟨7, 5, false, .eventHide 0 0⟩

/-- A buffer holding only `c9eW`. -/
def c9bW : PBuffer := ⟨3, [c9eW], 1, Q.ofInt 1, 0, 0, 1, false, none⟩

/-- A document holding one event of session 7, with another session active. -/
def c9sW : PicState := ⟨[c9bW], [], 0, 0, 4, 4, 100, 0⟩

/-- A not-undone event with session identity (2, 5). -/
def c10eW : PEvent := ⟨2, 5, false, .eventHide 0 0⟩

/-- A buffer holding only `c10eW`. -/
def c10bW : PBuffer := ⟨6, [c10eW], 1, Q.ofInt 1, 0, 0, 1, false, none⟩

/-- A document in which session identity (2, 5) matches a not-undone event. -/
def c10sW : PicState := ⟨[c10bW], [], 1, 1, 4, 4, 100, 0⟩

end GB


namespace GB


theorem foldl_push_map {α β : Type} (f : α → β) :
    ∀ (l : List α) (acc : List β),
      l.foldl (fun a e => a ++ [f e]) acc = acc ++ l.map f := by
  intro l
  induction l with
  | nil => intro acc; simp
  | cons e rest ih => intro acc; simp [ih]

theorem foldl_push_blocks {α β : Type} (g : α → List β) :
    ∀ (l : List α) (acc : List β),
      l.foldl (fun a b => a ++ g b) acc = acc ++ (l.map g).flatten := by
  intro l
  induction l with
  | nil => intro acc; simp
  | cons b rest ih => intro acc; simp [ih]

theorem serTargetEvents_length (b : PBuffer) :
    (serTargetEvents b).length = b.events.length := by
  unfold serTargetEvents
  cases b.events <;> simp

/-- Claim C8: the serialization of a picture is the header line followed by
exactly one line per event, all events of merged-away buffers before all
events of active-stack buffers, each buffer's events in log order; the total
line count is one plus the number of events. -/
theorem serialize_format (s : PicState) :
    serializeLines s =
      headerTokens s ::
        ((s.mergedBuffers ++ s.buffers).map
          (fun b => (serTargetEvents b).map serializeEvent)).flatten ∧
    (serializeLines s).length =
      1 + ((s.mergedBuffers ++ s.buffers).map (fun b => b.events.length)).sum := by
  have hmain : serializeLines s =
      headerTokens s ::
        ((s.mergedBuffers ++ s.buffers).map
          (fun b => (serTargetEvents b).map serializeEvent)).flatten := by
    unfold serializeLines
    have h1 : ∀ (bufs : List PBuffer) (acc : List (List Tok)),
        bufs.foldl
          (fun a b => (serTargetEvents b).foldl (fun a2 e => a2 ++ [serializeEvent e]) a)
          acc =
        acc ++ (bufs.map (fun b => (serTargetEvents b).map serializeEvent)).flatten := by
      intro bufs acc
      have := foldl_push_blocks (fun b => (serTargetEvents b).map serializeEvent) bufs acc
      rw [← this]
      congr 1
      funext a b
      exact foldl_push_map serializeEvent (serTargetEvents b) a
    rw [h1, h1]
    simp
  refine ⟨hmain, ?_⟩
  rw [hmain]
  simp [List.length_flatten, Function.comp_def, List.length_map, serTargetEvents_length]
  omega


theorem findTopmost_eq_none_of (sid seid : Nat) :
    ∀ (bufs : List PBuffer),
      (∀ b ∈ bufs, b.eventIndexBySessionId sid seid = none) →
      findTopmost bufs sid seid = none := by
  intro bufs
  induction bufs with
  | nil => intro _; rfl
  | cons b rest ih =>
    intro h
    unfold findTopmost
    rw [ih (fun b' hb' => h b' (List.mem_cons_of_mem _ hb')),
      h b (List.mem_cons_self _ _)]
    rfl

theorem of_findTopmost_eq_none (sid seid : Nat) :
    ∀ (bufs : List PBuffer), findTopmost bufs sid seid = none →
      ∀ b ∈ bufs, b.eventIndexBySessionId sid seid = none := by
  intro bufs
  induction bufs with
  | nil => intro _ b hb; cases hb
  | cons b rest ih =>
    intro h b' hb'
    unfold findTopmost at h
    rcases hrest : findTopmost rest sid seid with _ | p
    · rw [hrest] at h
      rcases List.mem_cons.mp hb' with rfl | hmem
      · rcases hidx : PBuffer.eventIndexBySessionId b' sid seid with _ | i
        · rfl
        · rw [hidx] at h; exact Option.noConfusion h
      · exact ih hrest b' hmem
    · rw [hrest] at h; simp at h

theorem eventIndexAux_some (sid seid : Nat) :
    ∀ (events : List PEvent) (i : Nat), eventIndexAux events sid seid = some i →
      ∃ e, events.get? i = some e ∧ e.sid = sid ∧ e.sessionEventId = seid := by
  intro events
  induction events with
  | nil => intro i h; simp [eventIndexAux] at h
  | cons e rest ih =>
    intro i h
    unfold eventIndexAux at h
    by_cases hc : (e.sid == sid && e.sessionEventId == seid) = true
    · rw [if_pos hc] at h
      cases h
      simp only [beq_iff_eq, Bool.and_eq_true] at hc
      exact ⟨e, rfl, hc.1, hc.2⟩
    · rw [if_neg hc] at h
      rcases hrest : eventIndexAux rest sid seid with _ | i'
      · rw [hrest] at h; exact Option.noConfusion h
      · rw [hrest] at h
        simp only [Option.map_some'] at h
        cases h
        obtain ⟨e', he', hs, hid⟩ := ih i' hrest
        exact ⟨e', he', hs, hid⟩

theorem findTopmost_some (sid seid : Nat) :
    ∀ (bufs : List PBuffer) (j i : Nat), findTopmost bufs sid seid = some (j, i) →
      ∃ b, bufs.get? j = some b ∧ b.eventIndexBySessionId sid seid = some i := by
  intro bufs
  induction bufs with
  | nil => intro j i h; simp [findTopmost] at h
  | cons b rest ih =>
    intro j i h
    unfold findTopmost at h
    rcases hrest : findTopmost rest sid seid with _ | p
    · rw [hrest] at h
      rcases hidx : PBuffer.eventIndexBySessionId b sid seid with _ | k
      · rw [hidx] at h; exact Option.noConfusion h
      · rw [hidx] at h
        simp only [Option.map_some'] at h
        cases h
        exact ⟨b, rfl, hidx⟩
    · rw [hrest] at h
      simp only [Option.some.injEq] at h
      obtain ⟨b', hb', hidx⟩ := ih p.1 p.2 (by rw [hrest])
      cases h
      exact ⟨b', hb', hidx⟩


/-- Claim C5: when a session identity matches no event in any active or
merged-away buffer, `undoEventSessionId` returns the null sentinel,
`redoEventSessionId` and `removeEventSessionId` return false, and in every
case the state — buffers, logs and memory counters — is returned unchanged
and no error is thrown. -/
theorem sessionId_ops_not_found_noop (s : PicState) (sid seid : Nat)
    (h : ∀ b ∈ s.buffers ++ s.mergedBuffers,
      b.eventIndexBySessionId sid seid = none) :
    Picture.undoEventSessionId s sid seid = .ok (none, s) ∧
    Picture.redoEventSessionId s sid seid = .ok (false, s) ∧
    Picture.removeEventSessionId s sid seid = .ok (false, s) := by
  have hA : findTopmost s.buffers sid seid = none :=
    findTopmost_eq_none_of sid seid s.buffers
      (fun b hb => h b (List.mem_append_left _ hb))
  have hM : findTopmost s.mergedBuffers sid seid = none :=
    findTopmost_eq_none_of sid seid s.mergedBuffers
      (fun b hb => h b (List.mem_append_right _ hb))
  have h1 : Picture.undoEventFromBuffers s false sid seid = .ok (none, s) := by
    unfold Picture.undoEventFromBuffers
    simp [hA]
  have h2 : Picture.undoEventFromBuffers s true sid seid = .ok (none, s) := by
    unfold Picture.undoEventFromBuffers
    simp [hM]
  have h3 : Picture.redoEventFromBuffers s false sid seid = .ok (false, s) := by
    unfold Picture.redoEventFromBuffers
    simp [hA]
  have h4 : Picture.redoEventFromBuffers s true sid seid = .ok (false, s) := by
    unfold Picture.redoEventFromBuffers
    simp [hM]
  have h5 : Picture.removeEventFromBuffers s false sid seid = .ok (false, s) := by
    unfold Picture.removeEventFromBuffers
    simp [hA]
  have h6 : Picture.removeEventFromBuffers s true sid seid = .ok (false, s) := by
    unfold Picture.removeEventFromBuffers
    simp [hM]
  refine ⟨?_, ?_, ?_⟩
  · unfold Picture.undoEventSessionId
    rw [h1]; exact h2
  · unfold Picture.redoEventSessionId
    rw [h3]; exact h4
  · unfold Picture.removeEventSessionId
    rw [h5]; exact h6

/-- Claim C10: when a session identity matches an event that is not undone,
`redoEventSessionId` still returns true, performs no redo, and leaves the
whole state unchanged. -/
theorem redo_found_not_undone (s : PicState) (sid seid : Nat)
    (hfound : ∃ b ∈ s.buffers ++ s.mergedBuffers,
      (b.eventIndexBySessionId sid seid).isSome = true)
    (hall : ∀ b ∈ s.buffers ++ s.mergedBuffers, ∀ e ∈ b.events,
      e.sid = sid → e.sessionEventId = seid → e.undone = false) :
    Picture.redoEventSessionId s sid seid = .ok (true, s) := by
  have main : ∀ (inMerged : Bool) (bufs : List PBuffer),
      bufs = (if inMerged then s.mergedBuffers else s.buffers) →
      (∀ b ∈ bufs, ∀ e ∈ b.events,
        e.sid = sid → e.sessionEventId = seid → e.undone = false) →
      ∀ j i, findTopmost bufs sid seid = some (j, i) →
      Picture.redoEventFromBuffers s inMerged sid seid = .ok (true, s) := by
    intro inMerged bufs hbufs hloc j i hft
    obtain ⟨b, hb, hidx⟩ := findTopmost_some sid seid bufs j i hft
    obtain ⟨e, he, hsid, hseid⟩ := eventIndexAux_some sid seid b.events i hidx
    have hbmem : b ∈ bufs := by
      exact List.get?_mem hb
    have hemem : e ∈ b.events := List.get?_mem he
    have hund : e.undone = false := hloc b hbmem e hemem hsid hseid
    unfold Picture.redoEventFromBuffers
    rw [← hbufs]
    simp only [hft, hb, he, hund]
    simp
  rcases hftA : findTopmost s.buffers sid seid with _ | p
  · have hM : ∃ q, findTopmost s.mergedBuffers sid seid = some q := by
      rcases hftM : findTopmost s.mergedBuffers sid seid with _ | q
      · exfalso
        obtain ⟨b, hb, hsome⟩ := hfound
        rcases List.mem_append.mp hb with hbA | hbM
        · rw [of_findTopmost_eq_none sid seid s.buffers hftA b hbA] at hsome
          simp at hsome
        · rw [of_findTopmost_eq_none sid seid s.mergedBuffers hftM b hbM] at hsome
          simp at hsome
      · exact ⟨q, rfl⟩
    obtain ⟨⟨j, i⟩, hftM⟩ := hM
    have hfirst : Picture.redoEventFromBuffers s false sid seid = .ok (false, s) := by
      unfold Picture.redoEventFromBuffers
      simp [hftA]
    have hsecond := main true s.mergedBuffers (by simp)
      (fun b hb => hall b (List.mem_append_right _ hb)) j i hftM
    unfold Picture.redoEventSessionId
    rw [hfirst]; exact hsecond
  · obtain ⟨j, i⟩ := p
    have hfirst := main false s.buffers (by simp)
      (fun b hb => hall b (List.mem_append_left _ hb)) j i hftA
    unfold Picture.redoEventSessionId
    rw [hfirst]



/-- Identity and event log of a buffer: the projection preserved by the
memory-accounting operations. -/
def projB (b : PBuffer) : Nat × List PEvent := (b.id, b.events)

theorem map_set_same {α β : Type} (f : α → β) :
    ∀ (l : List α) (k : Nat) (b' : α),
      (∀ x, l.get? k = some x → f x = f b') → (l.set k b').map f = l.map f := by
  intro l
  induction l with
  | nil => intro k b' _; rfl
  | cons hd tl ih =>
    intro k b' h
    cases k with
    | zero => simp [List.set, h hd rfl]
    | succ k => simp [List.set, ih k b' (fun x hx => h x hx)]

theorem findBufferIndex_some (tid : Int) :
    ∀ (bufs : List PBuffer) (k : Nat), findBufferIndex bufs tid = some k →
      ∃ b, bufs.get? k = some b ∧ (b.id : Int) = tid := by
  intro bufs
  induction bufs with
  | nil => intro k h; exact Option.noConfusion h
  | cons b rest ih =>
    intro k h
    unfold findBufferIndex at h
    by_cases hc : ((b.id : Int) == tid) = true
    · rw [if_pos hc] at h
      cases h
      exact ⟨b, rfl, by simpa using hc⟩
    · rw [if_neg hc] at h
      rcases hrest : findBufferIndex rest tid with _ | k'
      · rw [hrest] at h; exact Option.noConfusion h
      · rw [hrest] at h
        simp only [Option.map_some'] at h
        cases h
        obtain ⟨b', hb', hid⟩ := ih k' hrest
        exact ⟨b', hb', hid⟩

theorem findBufferIndex_isSome_of_mem (b : PBuffer) :
    ∀ (bufs : List PBuffer), b ∈ bufs →
      (findBufferIndex bufs (b.id : Int)).isSome = true := by
  intro bufs
  induction bufs with
  | nil => intro h; cases h
  | cons hd rest ih =>
    intro h
    unfold findBufferIndex
    by_cases hc : ((hd.id : Int) == (b.id : Int)) = true
    · rw [if_pos hc]; rfl
    · rw [if_neg hc]
      rcases List.mem_cons.mp h with rfl | hmem
      · exact absurd (by simp) hc
      · rcases hrest : findBufferIndex rest (b.id : Int) with _ | k
        · rw [hrest] at ih; exact absurd (ih hmem) (by simp)
        · simp [hrest]

theorem proj_transfer {l l' : List PBuffer}
    (h : l.map projB = l'.map projB) {x : PBuffer} (hx : x ∈ l)
    (P : Nat × List PEvent → Prop) (hP : P (projB x)) :
    ∃ y ∈ l', P (projB y) := by
  have hmem : projB x ∈ l'.map projB := h ▸ List.mem_map_of_mem projB hx
  obtain ⟨y, hy, hxy⟩ := List.mem_map.mp hmem
  exact ⟨y, hy, hxy ▸ hP⟩

theorem findBuffer_id (s : PicState) (id : Int) (b : PBuffer)
    (hf : s.findBuffer id = some b) : (b.id : Int) = id := by
  unfold PicState.findBuffer at hf
  rcases hA : findBufferIndex s.buffers id with _ | k
  · rcases hM : findBufferIndex s.mergedBuffers id with _ | k
    · rw [hA, hM] at hf; exact Option.noConfusion hf
    · rw [hA, hM] at hf
      dsimp only at hf
      obtain ⟨b', hb', hbid⟩ := findBufferIndex_some id s.mergedBuffers k hM
      rw [hb'] at hf; cases hf; exact hbid
  · rw [hA] at hf
    dsimp only at hf
    obtain ⟨b', hb', hbid⟩ := findBufferIndex_some id s.buffers k hA
    rw [hb'] at hf; cases hf; exact hbid

theorem setBuffer_proj_of_found (s : PicState) (id : Int) (b b' : PBuffer)
    (hf : s.findBuffer id = some b) (hid : b'.id = b.id)
    (hp : projB b' = projB b) :
    (s.setBuffer b').buffers.map projB = s.buffers.map projB ∧
    (s.setBuffer b').mergedBuffers.map projB = s.mergedBuffers.map projB := by
  have hbid : (b.id : Int) = id := findBuffer_id s id b hf
  have hkey : (b'.id : Int) = id := by rw [hid, hbid]
  unfold PicState.findBuffer at hf
  unfold PicState.setBuffer
  rcases hA : findBufferIndex s.buffers id with _ | k
  · rcases hM : findBufferIndex s.mergedBuffers id with _ | k
    · rw [hA, hM] at hf
      dsimp only at hf
      exact Option.noConfusion hf
    · rw [hA, hM] at hf
      dsimp only at hf
      rw [hkey, hA, hM]
      dsimp only
      refine ⟨rfl, ?_⟩
      exact map_set_same projB s.mergedBuffers k b'
        (fun x hx => by rw [hf] at hx; injection hx with hx; rw [← hx, hp])
  · rw [hA] at hf
    dsimp only at hf
    rw [hkey, hA]
    dsimp only
    refine ⟨?_, rfl⟩
    exact map_set_same projB s.buffers k b'
      (fun x hx => by rw [hf] at hx; injection hx with hx; rw [← hx, hp])

theorem freeBuffer_proj (s : PicState) (id : Nat) :
    (s.freeBuffer id).buffers.map projB = s.buffers.map projB ∧
    (s.freeBuffer id).mergedBuffers.map projB = s.mergedBuffers.map projB := by
  unfold PicState.freeBuffer
  rcases hf : s.findBuffer (id : Int) with _ | b
  · exact ⟨rfl, rfl⟩
  · dsimp only
    cases hfr : b.freed
    · simp only [hfr, Bool.not_false, if_true]
      exact setBuffer_proj_of_found s (id : Int) b _ hf rfl rfl
    · simp [hfr]

theorem swmbEvict_proj (s : PicState) (sel : Bool × Nat) :
    (swmbEvict s sel).buffers.map projB = s.buffers.map projB ∧
    (swmbEvict s sel).mergedBuffers.map projB = s.mergedBuffers.map projB := by
  obtain ⟨inM, k⟩ := sel
  unfold swmbEvict
  cases inM
  · simp only [Bool.false_eq_true, if_false]
    rcases hget : s.buffers.get? k with _ | b
    · exact ⟨rfl, rfl⟩
    · dsimp only
      refine ⟨?_, rfl⟩
      exact map_set_same projB s.buffers k _
        (fun x hx => by rw [hget] at hx; injection hx with hx; rw [← hx]; rfl)
  · simp only [if_true]
    rcases hget : s.mergedBuffers.get? k with _ | b
    · exact ⟨rfl, rfl⟩
    · dsimp only
      refine ⟨rfl, ?_⟩
      exact map_set_same projB s.mergedBuffers k _
        (fun x hx => by rw [hget] at hx; injection hx with hx; rw [← hx]; rfl)

theorem swmbGo_proj :
    ∀ (fuel : Nat) (s : PicState) (r : Int) (s' : PicState),
      swmbGo fuel s r = .ok s' →
      s'.buffers.map projB = s.buffers.map projB ∧
      s'.mergedBuffers.map projB = s.mergedBuffers.map projB := by
  intro fuel
  induction fuel with
  | zero => intro s r s' h; exact Except.noConfusion h
  | succ n ih =>
    intro s r s' h
    unfold swmbGo at h
    by_cases hneed : s.memoryUse - (s.memoryBudget - r) > 0
    · rw [if_pos hneed] at h
      dsimp only at h
      rcases hscan : swmbScanMerged s s.mergedBuffers 0
          (swmbScanActive s.buffers 0 (false, Q.ofInt 0, none)) with e | acc
      · rw [hscan] at h; exact Except.noConfusion h
      · rw [hscan] at h
        obtain ⟨fp, bestPr, selected⟩ := acc
        rcases hsel : selected with _ | sel
        · rw [hsel] at h
          dsimp only at h
          by_cases hfp : fp = true
          · rw [if_pos hfp] at h; exact Except.noConfusion h
          · rw [if_neg hfp] at h
            cases h
            exact ⟨rfl, rfl⟩
        · rw [hsel] at h
          dsimp only at h
          have hrec := ih (swmbEvict s sel) r s' h
          have hev := swmbEvict_proj s sel
          exact ⟨hrec.1.trans hev.1, hrec.2.trans hev.2⟩
    · rw [if_neg hneed] at h
      cases h
      exact ⟨rfl, rfl⟩

theorem stayWithin_proj (s : PicState) (r : Int) (s' : PicState)
    (h : stayWithinMemoryBudget s r = .ok s') :
    s'.buffers.map projB = s.buffers.map projB ∧
    s'.mergedBuffers.map projB = s.mergedBuffers.map projB :=
  swmbGo_proj (swmbFuel s) s r s' h

theorem regenerateBuffer_proj (s : PicState) (id : Nat) (s' : PicState)
    (h : s.regenerateBuffer id = .ok s') :
    s'.buffers.map projB = s.buffers.map projB ∧
    s'.mergedBuffers.map projB = s.mergedBuffers.map projB := by
  unfold PicState.regenerateBuffer at h
  rcases hf : s.findBuffer (id : Int) with _ | b
  · rw [hf] at h
    dsimp only at h
    cases h; exact ⟨rfl, rfl⟩
  · rw [hf] at h
    dsimp only at h
    by_cases hfr : b.freed = true
    · rw [if_pos hfr] at h
      rcases hsw : stayWithinMemoryBudget s b.getMemoryNeededForReservingStates
          with e | s1
      · rw [hsw] at h; exact Except.noConfusion h
      · rw [hsw] at h
        dsimp only at h
        have hp1 := stayWithin_proj s _ s1 hsw
        rcases hf1 : s1.findBuffer (id : Int) with _ | bNow
        · rw [hf1] at h
          dsimp only at h
          cases h
          exact ⟨hp1.1, hp1.2⟩
        · rw [hf1] at h
          dsimp only at h
          cases h
          have hp2 := setBuffer_proj_of_found s1 (id : Int) bNow
            { bNow with freed := false } hf1 rfl rfl
          dsimp only
          exact ⟨hp2.1.trans hp1.1, hp2.2.trans hp1.2⟩
    · rw [if_neg hfr] at h; cases h; exact ⟨rfl, rfl⟩


theorem mem_jsInsertAt_of_mem (l : List PBuffer) (i : Nat) (x y : PBuffer)
    (h : y ∈ l) : y ∈ jsInsertAt l i x := by
  unfold jsInsertAt
  exact (List.mem_insertIdx (Nat.min_le_right i l.length)).mpr (Or.inr h)

theorem mem_jsInsertAt_self (l : List PBuffer) (i : Nat) (x : PBuffer) :
    x ∈ jsInsertAt l i x := by
  unfold jsInsertAt
  exact (List.mem_insertIdx (Nat.min_le_right i l.length)).mpr (Or.inl rfl)

theorem mem_eraseIdx_of_ne :
    ∀ (l : List PBuffer) (k : Nat) (c y : PBuffer), y ∈ l →
      l.get? k = some c → y ≠ c → y ∈ l.eraseIdx k := by
  intro l
  induction l with
  | nil => intro k c y hy; cases hy
  | cons hd tl ih =>
    intro k c y hy hk hne
    cases k with
    | zero =>
      injection hk with hk
      rcases List.mem_cons.mp hy with rfl | hmem
      · exact absurd hk hne
      · simpa [List.eraseIdx] using hmem
    | succ k =>
      rcases List.mem_cons.mp hy with rfl | hmem
      · simp [List.eraseIdx]
      · simpa [List.eraseIdx] using Or.inr (ih k c y hmem hk hne)

theorem mem_moveBufferInternal (s : PicState) (k t : Nat) (y : PBuffer)
    (hy : y ∈ s.buffers) : y ∈ (s.moveBufferInternal k t).buffers := by
  unfold PicState.moveBufferInternal
  rcases hget : s.buffers.get? k with _ | x
  · exact hy
  · dsimp only
    by_cases hyx : y = x
    · subst hyx; exact mem_jsInsertAt_self _ t y
    · exact mem_jsInsertAt_of_mem _ t x y
        (mem_eraseIdx_of_ne s.buffers k x y hy hget hyx)

theorem undoEventIndexB_some (b : PBuffer) (i : Nat) (allow : Bool)
    (ev : PEvent) (b' : PBuffer)
    (h : b.undoEventIndexB i allow = some (ev, b')) :
    ∃ e0, b.events.get? i = some e0 ∧ ev = { e0 with undone := true } ∧
      b' = { b with events := b.events.set i ev } ∧
      (e0.payload.isMerge && !allow) = false := by
  unfold PBuffer.undoEventIndexB at h
  rcases hget : b.events.get? i with _ | e0
  · rw [hget] at h; exact Option.noConfusion h
  · rw [hget] at h
    dsimp only at h
    by_cases hc : (e0.payload.isMerge && !allow) = true
    · rw [if_pos hc] at h; exact Option.noConfusion h
    · rw [if_neg hc] at h
      injection h with h
      injection h with h1 h2
      refine ⟨e0, rfl, h1.symm, ?_, by simpa using hc⟩
      rw [← h1]
      exact h2.symm

theorem findBufferIndex_isSome_of_mem_id (tid : Int) (b : PBuffer)
    (hid : (b.id : Int) = tid) :
    ∀ (bufs : List PBuffer), b ∈ bufs →
      (findBufferIndex bufs tid).isSome = true := by
  intro bufs
  induction bufs with
  | nil => intro h; cases h
  | cons hd rest ih =>
    intro h
    unfold findBufferIndex
    by_cases hc : ((hd.id : Int) == tid) = true
    · rw [if_pos hc]; rfl
    · rw [if_neg hc]
      rcases List.mem_cons.mp h with rfl | hmem
      · exact absurd (by simp [hid]) hc
      · rcases hrest : findBufferIndex rest tid with _ | k
        · rw [hrest] at ih; exact absurd (ih hmem) (by simp)
        · simp [hrest]

theorem setBuffer_bufs (s : PicState) (b : PBuffer) (k : Nat)
    (hk : findBufferIndex s.buffers (b.id : Int) = some k) :
    s.setBuffer b = { s with buffers := s.buffers.set k b } := by
  unfold PicState.setBuffer
  rw [hk]

theorem setBuffer_merged (s : PicState) (b : PBuffer) (k : Nat)
    (hA : findBufferIndex s.buffers (b.id : Int) = none)
    (hk : findBufferIndex s.mergedBuffers (b.id : Int) = some k) :
    s.setBuffer b = { s with mergedBuffers := s.mergedBuffers.set k b } := by
  unfold PicState.setBuffer
  rw [hA, hk]

theorem setBuffer_mem (s : PicState) (b c : PBuffer)
    (hc : c ∈ s.buffers ++ s.mergedBuffers) (hid : c.id = b.id) :
    b ∈ (s.setBuffer b).buffers ++ (s.setBuffer b).mergedBuffers := by
  rcases hA : findBufferIndex s.buffers (b.id : Int) with _ | k
  · rcases hM : findBufferIndex s.mergedBuffers (b.id : Int) with _ | k
    · exfalso
      rcases List.mem_append.mp hc with hcb | hcm
      · have := findBufferIndex_isSome_of_mem_id (b.id : Int) c
          (by rw [hid]) s.buffers hcb
        rw [hA] at this; exact Bool.noConfusion this
      · have := findBufferIndex_isSome_of_mem_id (b.id : Int) c
          (by rw [hid]) s.mergedBuffers hcm
        rw [hM] at this; exact Bool.noConfusion this
    · rw [setBuffer_merged s b k hA hM]
      obtain ⟨x, hx, _⟩ := findBufferIndex_some (b.id : Int) s.mergedBuffers k hM
      rcases List.get?_eq_some.mp hx with ⟨hlt, _⟩
      refine List.mem_append.mpr (Or.inr ?_)
      exact List.get?_mem (List.get?_set_eq_of_lt b hlt)
  · rw [setBuffer_bufs s b k hA]
    obtain ⟨x, hx, _⟩ := findBufferIndex_some (b.id : Int) s.buffers k hA
    rcases List.get?_eq_some.mp hx with ⟨hlt, _⟩
    refine List.mem_append.mpr (Or.inl ?_)
    exact List.get?_mem (List.get?_set_eq_of_lt b hlt)


theorem exists_mem_of_proj (s1 s2 : PicState)
    (hA : s2.buffers.map projB = s1.buffers.map projB)
    (hM : s2.mergedBuffers.map projB = s1.mergedBuffers.map projB)
    (b' : PBuffer) (hmem : b' ∈ s1.buffers ++ s1.mergedBuffers) :
    ∃ b'' ∈ s2.buffers ++ s2.mergedBuffers, b''.id = b'.id ∧
      b''.events = b'.events := by
  rcases List.mem_append.mp hmem with hm1 | hm1
  · obtain ⟨y, hy, hyP⟩ := proj_transfer hA.symm hm1
      (fun p => p.1 = b'.id ∧ p.2 = b'.events) ⟨rfl, rfl⟩
    exact ⟨y, List.mem_append.mpr (Or.inl hy), hyP.1, hyP.2⟩
  · obtain ⟨y, hy, hyP⟩ := proj_transfer hM.symm hm1
      (fun p => p.1 = b'.id ∧ p.2 = b'.events) ⟨rfl, rfl⟩
    exact ⟨y, List.mem_append.mpr (Or.inr hy), hyP.1, hyP.2⟩

theorem undoEventIndex_ok (s : PicState) (buffer : PBuffer) (i : Nat) (m : Bool)
    (e' : PEvent) (s' : PicState)
    (hwhere : buffer ∈ (if m then s.mergedBuffers else s.buffers))
    (h : Picture.undoEventIndex s buffer i m = .ok (some e', s')) :
    ∃ e0, buffer.events.get? i = some e0 ∧ e' = { e0 with undone := true } ∧
      ∃ b'' ∈ s'.buffers ++ s'.mergedBuffers, b''.id = buffer.id ∧
        b''.events.get? i = some e' := by
  unfold Picture.undoEventIndex at h
  dsimp only at h
  rcases hu : buffer.undoEventIndexB i (!m) with _ | p
  · rw [hu] at h
    dsimp only at h
    injection h with h
    injection h with h1 _
    exact Option.noConfusion h1
  · obtain ⟨ev, b'⟩ := p
    rw [hu] at h
    dsimp only at h
    obtain ⟨e0, he0, hev, hb', hcnd⟩ := undoEventIndexB_some buffer i (!m) ev b' hu
    have hb'id : b'.id = buffer.id := by rw [hb']
    rcases List.get?_eq_some.mp he0 with ⟨hilt, _⟩
    have hb'get : b'.events.get? i = some ev := by
      rw [hb']
      exact List.get?_set_eq_of_lt ev hilt
    have hmemapp : buffer ∈ s.buffers ++ s.mergedBuffers := by
      cases m
      · exact List.mem_append.mpr (Or.inl (by simpa using hwhere))
      · exact List.mem_append.mpr (Or.inr (by simpa using hwhere))
    have hset : b' ∈ (s.setBuffer b').buffers ++ (s.setBuffer b').mergedBuffers :=
      setBuffer_mem s b' buffer hmemapp hb'id.symm
    have finish : ∀ s2 : PicState,
        s2.buffers.map projB = (s.setBuffer b').buffers.map projB →
        s2.mergedBuffers.map projB = (s.setBuffer b').mergedBuffers.map projB →
        ∃ b'' ∈ s2.buffers ++ s2.mergedBuffers, b''.id = buffer.id ∧
          b''.events.get? i = some ev := by
      intro s2 hA hM
      obtain ⟨b'', hmem2, hid2, hev2⟩ :=
        exists_mem_of_proj (s.setBuffer b') s2 hA hM b' hset
      exact ⟨b'', hmem2, hid2.trans hb'id, by rw [hev2]; exact hb'get⟩
    have finishMem : ∀ s2 : PicState, b' ∈ s2.buffers ++ s2.mergedBuffers →
        ∃ b'' ∈ s2.buffers ++ s2.mergedBuffers, b''.id = buffer.id ∧
          b''.events.get? i = some ev :=
      fun s2 hm => ⟨b', hm, hb'id, hb'get⟩
    have hbufcase : m = false → b' ∈ (s.setBuffer b').buffers ∧
        (s.setBuffer b').mergedBuffers = s.mergedBuffers := by
      intro hm0
      rw [hm0] at hwhere
      simp only [Bool.false_eq_true, if_false] at hwhere
      have hw : buffer ∈ s.buffers := hwhere
      have hsome := findBufferIndex_isSome_of_mem_id (b'.id : Int) buffer
        (by rw [hb'id]) s.buffers hw
      rcases hfA : findBufferIndex s.buffers (b'.id : Int) with _ | k
      · rw [hfA] at hsome; exact Bool.noConfusion hsome
      · rw [setBuffer_bufs s b' k hfA]
        obtain ⟨x, hx, _⟩ := findBufferIndex_some (b'.id : Int) s.buffers k hfA
        rcases List.get?_eq_some.mp hx with ⟨hlt, _⟩
        exact ⟨List.get?_mem (List.get?_set_eq_of_lt b' hlt), rfl⟩
    refine ⟨e0, he0, ?_⟩
    by_cases h0 : (i == 0) = true
    · rw [if_pos h0] at h
      injection h with h
      injection h with h1 hs'
      injection h1 with h1
      subst hs'
      have hproj := freeBuffer_proj (s.setBuffer b') buffer.id
      refine ⟨by rw [← h1, hev], ?_⟩
      obtain ⟨b'', hm2, hid2, he2⟩ := finish _ hproj.1 hproj.2
      exact ⟨b'', hm2, hid2, by rw [he2, h1]⟩
    · rw [if_neg h0] at h
      have hpayev : ev.payload = e0.payload := by rw [hev]
      rcases hpay : e0.payload with
        ⟨c1, c2, c3, fl, op, ra, so, mo⟩ | ⟨c1, c2, c3, fl, op, ra, so, mo⟩ |
        ⟨c1, c2, c3, op, mo⟩ | ⟨bid, ha, cr, cg, cb, ca, op, ip⟩ | ⟨bid⟩ |
        ⟨mid, fi, ti⟩ | ⟨q, mid⟩ | ⟨hs, hse⟩
      all_goals rw [hpayev, hpay] at h
      -- brush
      · injection h with h
        injection h with h1 hs'
        injection h1 with h1
        subst hs'
        refine ⟨by rw [← h1, hev, hpay], ?_⟩
        obtain ⟨b'', hm2, hid2, he2⟩ := finishMem _ hset
        exact ⟨b'', hm2, hid2, by rw [he2, h1]⟩
      -- scatter
      · injection h with h
        injection h with h1 hs'
        injection h1 with h1
        subst hs'
        refine ⟨by rw [← h1, hev, hpay], ?_⟩
        obtain ⟨b'', hm2, hid2, he2⟩ := finishMem _ hset
        exact ⟨b'', hm2, hid2, by rw [he2, h1]⟩
      -- gradient
      · injection h with h
        injection h with h1 hs'
        injection h1 with h1
        subst hs'
        refine ⟨by rw [← h1, hev, hpay], ?_⟩
        obtain ⟨b'', hm2, hid2, he2⟩ := finishMem _ hset
        exact ⟨b'', hm2, hid2, by rw [he2, h1]⟩
      -- bufferAdd
      · injection h with h
        injection h with h1 hs'
        injection h1 with h1
        subst hs'
        refine ⟨by rw [← h1, hev, hpay], ?_⟩
        obtain ⟨b'', hm2, hid2, he2⟩ := finishMem _ hset
        exact ⟨b'', hm2, hid2, by rw [he2, h1]⟩
      -- bufferRemove
      · rcases hrem : !b'.isRemoved with _ | _
        · rw [hrem] at h
          simp only [Bool.false_eq_true, if_false] at h
          injection h with h
          injection h with h1 hs'
          injection h1 with h1
          subst hs'
          refine ⟨by rw [← h1, hev, hpay], ?_⟩
          obtain ⟨b'', hm2, hid2, he2⟩ := finishMem _ hset
          exact ⟨b'', hm2, hid2, by rw [he2, h1]⟩
        · rw [hrem] at h
          simp only [if_true] at h
          rcases hr : (s.setBuffer b').regenerateBuffer buffer.id with er | s2
          · rw [hr] at h; exact Except.noConfusion h
          · rw [hr] at h
            injection h with h
            injection h with h1 hs'
            injection h1 with h1
            subst hs'
            have hproj := regenerateBuffer_proj (s.setBuffer b') buffer.id s2 hr
            refine ⟨by rw [← h1, hev, hpay], ?_⟩
            obtain ⟨b'', hm2, hid2, he2⟩ := finish _ hproj.1 hproj.2
            exact ⟨b'', hm2, hid2, by rw [he2, h1]⟩
      -- bufferMove
      · cases m
        · simp only [Bool.not_false, if_true] at h
          obtain ⟨hbmem, _⟩ := hbufcase rfl
          rcases hfi : findBufferIndex (s.setBuffer b').buffers
              (buffer.id : Int) with _ | u
          · rw [hfi] at h
            injection h with h
            injection h with h1 hs'
            injection h1 with h1
            subst hs'
            refine ⟨by rw [← h1, hev, hpay], ?_⟩
            obtain ⟨b'', hm2, hid2, he2⟩ := finishMem _ hset
            exact ⟨b'', hm2, hid2, by rw [he2, h1]⟩
          · rw [hfi] at h
            injection h with h
            injection h with h1 hs'
            injection h1 with h1
            subst hs'
            refine ⟨by rw [← h1, hev, hpay], ?_⟩
            have hmv : b' ∈ ((s.setBuffer b').moveBufferInternal u
                (((s.setBuffer b').buffers.length - 1) ⊓ fi)).buffers :=
              mem_moveBufferInternal (s.setBuffer b') u _ b' hbmem
            obtain ⟨b'', hm2, hid2, he2⟩ := finishMem _
              (List.mem_append.mpr (Or.inl hmv))
            exact ⟨b'', hm2, hid2, by rw [he2, h1]⟩
        · simp only [Bool.not_true, Bool.false_eq_true, if_false] at h
          injection h with h
          injection h with h1 hs'
          injection h1 with h1
          subst hs'
          refine ⟨by rw [← h1, hev, hpay], ?_⟩
          obtain ⟨b'', hm2, hid2, he2⟩ := finishMem _ hset
          exact ⟨b'', hm2, hid2, by rw [he2, h1]⟩
      -- bufferMerge
      · have hm0 : m = false := by
          rw [hpay] at hcnd
          simpa [Payload.isMerge] using hcnd
        subst hm0
        obtain ⟨hbmem, hmrg⟩ := hbufcase rfl
        dsimp only at h
        rcases hfm : findBufferIndex (s.setBuffer b').mergedBuffers (mid : Int)
            with _ | mA
        · rw [hfm] at h
          dsimp only at h
          injection h with h
          injection h with h1 hs'
          injection h1 with h1
          subst hs'
          refine ⟨by rw [← h1, hev, hpay], ?_⟩
          obtain ⟨b'', hm2, hid2, he2⟩ := finishMem
            { s.setBuffer b' with
                mergedBuffers := (s.setBuffer b').mergedBuffers.dropLast }
            (List.mem_append.mpr (Or.inl hbmem))
          exact ⟨b'', hm2, hid2, by rw [he2, h1]⟩
        · rw [hfm] at h
          dsimp only at h
          rcases hgm : (s.setBuffer b').mergedBuffers.get? mA with _ | A
          · rw [hgm] at h
            injection h with h
            injection h with h1 hs'
            injection h1 with h1
            subst hs'
            refine ⟨by rw [← h1, hev, hpay], ?_⟩
            obtain ⟨b'', hm2, hid2, he2⟩ := finishMem _ hset
            exact ⟨b'', hm2, hid2, by rw [he2, h1]⟩
          · rw [hgm] at h
            injection h with h
            injection h with h1 hs'
            injection h1 with h1
            subst hs'
            refine ⟨by rw [← h1, hev, hpay], ?_⟩
            have hin : b' ∈ jsInsertAt (s.setBuffer b').buffers
                ((Option.map (fun x => x + 1)
                  (findBufferIndex (s.setBuffer b').buffers (buffer.id : Int))).getD 0)
                { A with mergedTo := none } :=
              mem_jsInsertAt_of_mem _ _ _ b' hbmem
            obtain ⟨b'', hm2, hid2, he2⟩ := finishMem
              { s.setBuffer b' with
                  buffers := jsInsertAt (s.setBuffer b').buffers
                    ((Option.map (fun x => x + 1)
                      (findBufferIndex (s.setBuffer b').buffers
                        (buffer.id : Int))).getD 0)
                    { A with mergedTo := none },
                  mergedBuffers := (s.setBuffer b').mergedBuffers.eraseIdx mA }
              (List.mem_append.mpr (Or.inl hin))
            exact ⟨b'', hm2, hid2, by rw [he2, h1]⟩
      -- eventHide
      · injection h with h
        injection h with h1 hs'
        injection h1 with h1
        subst hs'
        refine ⟨by rw [← h1, hev, hpay], ?_⟩
        obtain ⟨b'', hm2, hid2, he2⟩ := finishMem _ hset
        exact ⟨b'', hm2, hid2, by rw [he2, h1]⟩



theorem findLatestB_none (sid : Nat) (canBeUndone : Bool) :
    ∀ (events : List PEvent),
      PBuffer.findLatestB events sid canBeUndone = none →
      ∀ e ∈ events, e.sid = sid → (canBeUndone || !e.undone) = true → False := by
  intro events
  induction events with
  | nil => intro _ e he; cases he
  | cons e rest ih =>
    intro h e' he' hsid hcond
    unfold PBuffer.findLatestB at h
    by_cases hc : (e.sid == sid && (canBeUndone || !e.undone)) = true
    · rw [if_pos hc] at h
      rcases hrest : PBuffer.findLatestB rest sid canBeUndone with _ | p
      · rw [hrest] at h
        simp only [Option.map_none'] at h
        exact Option.noConfusion h
      · rw [hrest] at h
        simp only [Option.map_some'] at h
        split at h <;> exact Option.noConfusion h
    · rw [if_neg hc] at h
      rcases List.mem_cons.mp he' with rfl | hmem
      · exact hc (by simp [hsid, hcond])
      · rcases hrest : PBuffer.findLatestB rest sid canBeUndone with _ | p
        · exact ih hrest e' hmem hsid hcond
        · rw [hrest] at h
          simp only [Option.map_some'] at h
          exact Option.noConfusion h

theorem findLatestB_le (sid : Nat) (canBeUndone : Bool) :
    ∀ (events : List PEvent) (i m : Nat),
      PBuffer.findLatestB events sid canBeUndone = some (i, m) →
      ∀ e ∈ events, e.sid = sid → (canBeUndone || !e.undone) = true →
        e.sessionEventId ≤ m := by
  intro events
  induction events with
  | nil => intro i m h; exact absurd h (by simp [PBuffer.findLatestB])
  | cons e rest ih =>
    intro i m h e' he' hsid hcond
    unfold PBuffer.findLatestB at h
    rcases List.mem_cons.mp he' with rfl | hmem
    · rw [if_pos (by simp [hsid, hcond])] at h
      rcases hrest : PBuffer.findLatestB rest sid canBeUndone with _ | p
      · rw [hrest] at h
        simp only [Option.map_none'] at h
        cases h
        exact le_refl _
      · rw [hrest] at h
        simp only [Option.map_some'] at h
        by_cases hge : e'.sessionEventId ≥ p.2
        · rw [if_pos hge] at h; cases h; exact le_refl _
        · rw [if_neg hge] at h; cases h; omega
    · by_cases hc : (e.sid == sid && (canBeUndone || !e.undone)) = true
      · rw [if_pos hc] at h
        rcases hrest : PBuffer.findLatestB rest sid canBeUndone with _ | p
        · exact absurd (findLatestB_none sid canBeUndone rest hrest e' hmem hsid hcond) id
        · rw [hrest] at h
          simp only [Option.map_some'] at h
          have hrec := ih p.1 p.2 (by rw [hrest]) e' hmem hsid hcond
          by_cases hge : e.sessionEventId ≥ p.2
          · rw [if_pos hge] at h; cases h; omega
          · rw [if_neg hge] at h; cases h; omega
      · rw [if_neg hc] at h
        rcases hrest : PBuffer.findLatestB rest sid canBeUndone with _ | p
        · rw [hrest] at h; exact Option.noConfusion h
        · rw [hrest] at h
          simp only [Option.map_some'] at h
          cases h
          exact ih p.1 p.2 hrest e' hmem hsid hcond

theorem findLatestB_get (sid : Nat) (canBeUndone : Bool) :
    ∀ (events : List PEvent) (i m : Nat),
      PBuffer.findLatestB events sid canBeUndone = some (i, m) →
      ∃ e, events.get? i = some e ∧ e.sid = sid ∧
        (canBeUndone || !e.undone) = true ∧ e.sessionEventId = m := by
  intro events
  induction events with
  | nil => intro i m h; exact absurd h (by simp [PBuffer.findLatestB])
  | cons e rest ih =>
    intro i m h
    unfold PBuffer.findLatestB at h
    by_cases hc : (e.sid == sid && (canBeUndone || !e.undone)) = true
    · rw [if_pos hc] at h
      simp only [beq_iff_eq, Bool.and_eq_true] at hc
      rcases hrest : PBuffer.findLatestB rest sid canBeUndone with _ | p
      · rw [hrest] at h
        simp only [Option.map_none'] at h
        cases h
        exact ⟨e, rfl, hc.1, hc.2, rfl⟩
      · rw [hrest] at h
        simp only [Option.map_some'] at h
        by_cases hge : e.sessionEventId ≥ p.2
        · rw [if_pos hge] at h; cases h
          exact ⟨e, rfl, hc.1, hc.2, rfl⟩
        · rw [if_neg hge] at h; cases h
          obtain ⟨e', he', h1, h2, h3⟩ := ih p.1 p.2 hrest
          exact ⟨e', he', h1, h2, h3⟩
    · rw [if_neg hc] at h
      rcases hrest : PBuffer.findLatestB rest sid canBeUndone with _ | p
      · rw [hrest] at h; exact Option.noConfusion h
      · rw [hrest] at h
        simp only [Option.map_some'] at h
        cases h
        obtain ⟨e', he', h1, h2, h3⟩ := ih p.1 p.2 hrest
        exact ⟨e', he', h1, h2, h3⟩

theorem scanLatest_none (sid : Nat) (canBeUndone : Bool) :
    ∀ (bufs : List PBuffer), scanLatest bufs sid canBeUndone = none →
      ∀ b ∈ bufs, PBuffer.findLatestB b.events sid canBeUndone = none := by
  intro bufs
  induction bufs with
  | nil => intro _ b hb; cases hb
  | cons b rest ih =>
    intro h b' hb'
    unfold scanLatest at h
    rcases hhead : PBuffer.findLatestB b.events sid canBeUndone with _ | p
    · rw [hhead] at h
      rcases List.mem_cons.mp hb' with rfl | hmem
      · exact hhead
      · rcases hrest : scanLatest rest sid canBeUndone with _ | q
        · exact ih hrest b' hmem
        · rw [hrest] at h
          simp only [Option.map_some'] at h
          exact Option.noConfusion h
    · rw [hhead] at h
      rcases hrest : scanLatest rest sid canBeUndone with _ | q
      · rw [hrest] at h
        simp only [Option.map_none'] at h
        exact Option.noConfusion h
      · rw [hrest] at h
        simp only [Option.map_some'] at h
        split at h <;> exact Option.noConfusion h

theorem scanLatest_le (sid : Nat) (canBeUndone : Bool) :
    ∀ (bufs : List PBuffer) (j i m : Nat),
      scanLatest bufs sid canBeUndone = some (j, i, m) →
      ∀ b ∈ bufs, ∀ e ∈ b.events, e.sid = sid →
        (canBeUndone || !e.undone) = true → e.sessionEventId ≤ m := by
  intro bufs
  induction bufs with
  | nil => intro j i m h; exact absurd h (by simp [scanLatest])
  | cons b rest ih =>
    intro j i m h b' hb' e' he' hsid hcond
    unfold scanLatest at h
    rcases List.mem_cons.mp hb' with rfl | hmem
    · rcases hhead : PBuffer.findLatestB b'.events sid canBeUndone with _ | p
      · exact absurd (findLatestB_none sid canBeUndone b'.events hhead e' he' hsid hcond) id
      · rw [hhead] at h
        have hle := findLatestB_le sid canBeUndone b'.events p.1 p.2 hhead e' he' hsid hcond
        rcases hrest : scanLatest rest sid canBeUndone with _ | q
        · rw [hrest] at h
          simp only [Option.map_none'] at h
          cases h
          exact hle
        · rw [hrest] at h
          simp only [Option.map_some'] at h
          by_cases hge : p.2 ≥ q.2.2
          · rw [if_pos hge] at h; cases h; exact hle
          · rw [if_neg hge] at h; cases h; omega
    · rcases hrest : scanLatest rest sid canBeUndone with _ | q
      · exact absurd (findLatestB_none sid canBeUndone b'.events
          (scanLatest_none sid canBeUndone rest hrest b' hmem) e' he' hsid hcond) id
      · have hrec := ih q.1 q.2.1 q.2.2 (by rw [hrest]) b' hmem e' he' hsid hcond
        rcases hhead : PBuffer.findLatestB b.events sid canBeUndone with _ | p
        · rw [hhead, hrest] at h
          simp only [Option.map_some'] at h
          cases h
          exact hrec
        · rw [hhead, hrest] at h
          simp only [Option.map_some'] at h
          by_cases hge : p.2 ≥ q.2.2
          · rw [if_pos hge] at h; cases h; omega
          · rw [if_neg hge] at h; cases h; exact hrec

theorem scanLatest_get (sid : Nat) (canBeUndone : Bool) :
    ∀ (bufs : List PBuffer) (j i m : Nat),
      scanLatest bufs sid canBeUndone = some (j, i, m) →
      ∃ b, bufs.get? j = some b ∧
        PBuffer.findLatestB b.events sid canBeUndone = some (i, m) := by
  intro bufs
  induction bufs with
  | nil => intro j i m h; exact absurd h (by simp [scanLatest])
  | cons b rest ih =>
    intro j i m h
    unfold scanLatest at h
    rcases hhead : PBuffer.findLatestB b.events sid canBeUndone with _ | p
    · rw [hhead] at h
      rcases hrest : scanLatest rest sid canBeUndone with _ | q
      · rw [hrest] at h; exact Option.noConfusion h
      · rw [hrest] at h
        simp only [Option.map_some'] at h
        cases h
        obtain ⟨b', hb', hf⟩ := ih q.1 q.2.1 q.2.2 hrest
        exact ⟨b', hb', hf⟩
    · rw [hhead] at h
      rcases hrest : scanLatest rest sid canBeUndone with _ | q
      · rw [hrest] at h
        simp only [Option.map_none'] at h
        cases h
        exact ⟨b, rfl, by rw [hhead]⟩
      · rw [hrest] at h
        simp only [Option.map_some'] at h
        by_cases hge : p.2 ≥ q.2.2
        · rw [if_pos hge] at h; cases h
          exact ⟨b, rfl, by rw [hhead]⟩
        · rw [if_neg hge] at h; cases h
          obtain ⟨b', hb', hf⟩ := ih q.1 q.2.1 q.2.2 hrest
          exact ⟨b', hb', hf⟩

theorem findLatest_le (s : PicState) (sid : Nat) (canBeUndone : Bool)
    (r : FindLatestRes) (h : Picture.findLatest s sid canBeUndone = some r) :
    ∀ b ∈ s.buffers ++ s.mergedBuffers, ∀ e ∈ b.events, e.sid = sid →
      (canBeUndone || !e.undone) = true → e.sessionEventId ≤ r.sessionEventId := by
  intro b hb e he hsid hcond
  unfold Picture.findLatest at h
  rcases List.mem_append.mp hb with hbA | hbM
  · rcases hA : scanLatest s.buffers sid canBeUndone with _ | p
    · exact absurd (findLatestB_none sid canBeUndone b.events
        (scanLatest_none sid canBeUndone s.buffers hA b hbA) e he hsid hcond) id
    · obtain ⟨j, i, m⟩ := p
      have hle := scanLatest_le sid canBeUndone s.buffers j i m hA b hbA e he hsid hcond
      rw [hA] at h
      rcases hM : scanLatest s.mergedBuffers sid canBeUndone with _ | q
      · rw [hM] at h; cases h; exact hle
      · obtain ⟨j', i', m'⟩ := q
        rw [hM] at h
        dsimp only at h
        by_cases hgt : m' > m
        · rw [if_pos hgt] at h; cases h; simp; omega
        · rw [if_neg hgt] at h; cases h; exact hle
  · rcases hM : scanLatest s.mergedBuffers sid canBeUndone with _ | q
    · exact absurd (findLatestB_none sid canBeUndone b.events
        (scanLatest_none sid canBeUndone s.mergedBuffers hM b hbM) e he hsid hcond) id
    · obtain ⟨j', i', m'⟩ := q
      have hle := scanLatest_le sid canBeUndone s.mergedBuffers j' i' m' hM b hbM e he hsid hcond
      rw [hM] at h
      rcases hA : scanLatest s.buffers sid canBeUndone with _ | p
      · rw [hA] at h; cases h; exact hle
      · obtain ⟨j, i, m⟩ := p
        rw [hA] at h
        dsimp only at h
        by_cases hgt : m' > m
        · rw [if_pos hgt] at h; cases h; exact hle
        · rw [if_neg hgt] at h; cases h; simp; omega

theorem findLatest_get (s : PicState) (sid : Nat) (canBeUndone : Bool)
    (r : FindLatestRes) (h : Picture.findLatest s sid canBeUndone = some r) :
    ∃ b, (if r.inRemovedBuffer then s.mergedBuffers else s.buffers).get?
        r.bufferIndex = some b ∧
      PBuffer.findLatestB b.events sid canBeUndone =
        some (r.eventIndex, r.sessionEventId) := by
  unfold Picture.findLatest at h
  rcases hA : scanLatest s.buffers sid canBeUndone with _ | p
  · rcases hM : scanLatest s.mergedBuffers sid canBeUndone with _ | q
    · rw [hA, hM] at h; exact Option.noConfusion h
    · obtain ⟨j', i', m'⟩ := q
      rw [hA, hM] at h; cases h
      obtain ⟨b, hb, hf⟩ := scanLatest_get sid canBeUndone s.mergedBuffers j' i' m' hM
      exact ⟨b, by simpa using hb, hf⟩
  · obtain ⟨j, i, m⟩ := p
    rcases hM : scanLatest s.mergedBuffers sid canBeUndone with _ | q
    · rw [hA, hM] at h; cases h
      obtain ⟨b, hb, hf⟩ := scanLatest_get sid canBeUndone s.buffers j i m hA
      exact ⟨b, by simpa using hb, hf⟩
    · obtain ⟨j', i', m'⟩ := q
      rw [hA, hM] at h
      dsimp only at h
      by_cases hgt : m' > m
      · rw [if_pos hgt] at h; cases h
        obtain ⟨b, hb, hf⟩ := scanLatest_get sid canBeUndone s.mergedBuffers j' i' m' hM
        exact ⟨b, by simpa using hb, hf⟩
      · rw [if_neg hgt] at h; cases h
        obtain ⟨b, hb, hf⟩ := scanLatest_get sid canBeUndone s.buffers j i m hA
        exact ⟨b, by simpa using hb, hf⟩

theorem findLatest_none (s : PicState) (sid : Nat) (canBeUndone : Bool)
    (h : Picture.findLatest s sid canBeUndone = none) :
    ∀ b ∈ s.buffers ++ s.mergedBuffers, ∀ e ∈ b.events, e.sid = sid →
      (canBeUndone || !e.undone) = true → False := by
  intro b hb e he hsid hcond
  unfold Picture.findLatest at h
  rcases hA : scanLatest s.buffers sid canBeUndone with _ | p
  · rcases hM : scanLatest s.mergedBuffers sid canBeUndone with _ | q
    · rcases List.mem_append.mp hb with hbA | hbM
      · exact findLatestB_none sid canBeUndone b.events
          (scanLatest_none sid canBeUndone s.buffers hA b hbA) e he hsid hcond
      · exact findLatestB_none sid canBeUndone b.events
          (scanLatest_none sid canBeUndone s.mergedBuffers hM b hbM) e he hsid hcond
    · obtain ⟨j', i', m'⟩ := q
      rw [hA, hM] at h; exact Option.noConfusion h
  · obtain ⟨j, i, m⟩ := p
    rcases hM : scanLatest s.mergedBuffers sid canBeUndone with _ | q
    · rw [hA, hM] at h; exact Option.noConfusion h
    · obtain ⟨j', i', m'⟩ := q
      rw [hA, hM] at h
      dsimp only at h
      split at h <;> exact Option.noConfusion h


/-- Claim C4, amended: `findLatest` selects, among the active session's
not-undone events across active and merged-away buffers, one with the
maximal session event id; `undoLatest` returns the null sentinel unchanged
when no such event exists, when the selected event is the creation event
(index 0) of the only non-removed buffer of the active stack with the
keep-last-buffer guard on — the guard fires on the bare event index, so it
also covers a creation event of a REMOVED buffer when only one non-removed
buffer remains, which the literal claim excludes — and whenever it returns
an undone event, that event is the selected one, now marked undone, held by
a buffer of the resulting state. -/
theorem undoLatest_spec (s : PicState) :
    (∀ r, Picture.findLatest s s.activeSid false = some r →
      (∃ b, (if r.inRemovedBuffer then s.mergedBuffers else s.buffers).get?
          r.bufferIndex = some b ∧
        ∃ e, b.events.get? r.eventIndex = some e ∧ e.sid = s.activeSid ∧
          e.undone = false ∧ e.sessionEventId = r.sessionEventId) ∧
      (∀ b ∈ s.buffers ++ s.mergedBuffers, ∀ e ∈ b.events,
        e.sid = s.activeSid → e.undone = false →
        e.sessionEventId ≤ r.sessionEventId)) ∧
    (Picture.findLatest s s.activeSid false = none →
      Picture.undoLatest s true = .ok (none, s)) ∧
    (∀ r, Picture.findLatest s s.activeSid false = some r →
      r.inRemovedBuffer = false → r.eventIndex = 0 →
      s.buffers.countP (fun b => !b.isRemoved) = 1 →
      Picture.undoLatest s true = .ok (none, s)) ∧
    (∀ e' s', Picture.undoLatest s true = .ok (some e', s') →
      ∃ r, Picture.findLatest s s.activeSid false = some r ∧
        e'.sid = s.activeSid ∧ e'.undone = true ∧
        e'.sessionEventId = r.sessionEventId ∧
        ∃ b'' ∈ s'.buffers ++ s'.mergedBuffers,
          b''.events.get? r.eventIndex = some e') := by
  refine ⟨?_, ?_, ?_, ?_⟩
  · intro r hr
    constructor
    · obtain ⟨b, hb, hf⟩ := findLatest_get s s.activeSid false r hr
      obtain ⟨e, he, hsid, hcond, hseid⟩ :=
        findLatestB_get s.activeSid false b.events r.eventIndex
          r.sessionEventId hf
      exact ⟨b, hb, e, he, hsid, by simpa using hcond, hseid⟩
    · intro b hb e he hsid hund
      exact findLatest_le s s.activeSid false r hr b hb e he hsid
        (by simp [hund])
  · intro h
    unfold Picture.undoLatest
    rw [h]
  · intro r hr hirb hei hcnt
    unfold Picture.undoLatest
    rw [hr]
    dsimp only
    rw [hirb]
    simp only [Bool.false_eq_true, if_false]
    obtain ⟨b, hb, _⟩ := findLatest_get s s.activeSid false r hr
    rw [hirb] at hb
    simp only [Bool.false_eq_true, if_false] at hb
    rw [hb]
    dsimp only
    have hcond : (true && (r.eventIndex == 0) &&
        ((s.buffers.countP (fun b => !b.isRemoved)) == 1)) = true := by
      simp [hei, hcnt]
    rw [if_pos hcond]
  · intro e' s' h
    unfold Picture.undoLatest at h
    rcases hr : Picture.findLatest s s.activeSid false with _ | r
    · rw [hr] at h
      dsimp only at h
      injection h with h
      injection h with h1 _
      exact Option.noConfusion h1
    · rw [hr] at h
      dsimp only at h
      obtain ⟨b, hb, hf⟩ := findLatest_get s s.activeSid false r hr
      obtain ⟨e0, he0, hsid0, hcond0, hseid0⟩ :=
        findLatestB_get s.activeSid false b.events r.eventIndex
          r.sessionEventId hf
      cases hirb : r.inRemovedBuffer
      · rw [hirb] at h hb
        simp only [Bool.false_eq_true, if_false] at h hb
        rw [hb] at h
        rcases hgd : (true && (r.eventIndex == 0) &&
            ((s.buffers.countP (fun x => !x.isRemoved)) == 1)) with _ | _
        · rw [hgd] at h
          simp only [Bool.false_eq_true, if_false] at h
          have hwhere : b ∈ (if false then s.mergedBuffers else s.buffers) := by
            simpa using List.get?_mem hb
          obtain ⟨e1, he1, hev', b'', hm2, _, he2⟩ :=
            undoEventIndex_ok s b r.eventIndex false e' s' hwhere h
          rw [he0] at he1
          injection he1 with he1
          subst he1
          refine ⟨r, rfl, ?_, ?_, ?_, b'', hm2, he2⟩
          · rw [hev']; exact hsid0
          · rw [hev']
          · rw [hev']; exact hseid0
        · rw [hgd] at h
          simp only [if_true] at h
          injection h with h
          injection h with h1 _
          exact Option.noConfusion h1
      · rw [hirb] at h hb
        simp only [if_true] at h hb
        rw [hb] at h
        have hwhere : b ∈ (if true then s.mergedBuffers else s.buffers) := by
          simpa using List.get?_mem hb
        obtain ⟨e1, he1, hev', b'', hm2, _, he2⟩ :=
          undoEventIndex_ok s b r.eventIndex true e' s' hwhere h
        rw [he0] at he1
        injection he1 with he1
        subst he1
        refine ⟨r, rfl, ?_, ?_, ?_, b'', hm2, he2⟩
        · rw [hev']; exact hsid0
        · rw [hev']
        · rw [hev']; exact hseid0


end GB

namespace GB

theorem findBufferIndex_set_same_id (tid : Int) :
    ∀ (l : List PBuffer) (k : Nat) (c b' : PBuffer), l.get? k = some c →
      b'.id = c.id → findBufferIndex (l.set k b') tid = findBufferIndex l tid := by
  intro l
  induction l with
  | nil => intro k c b' hc; exact fun _ => Option.noConfusion hc
  | cons hd tl ih =>
    intro k c b' hc hid
    cases k with
    | zero =>
      injection hc with hc
      subst hc
      simp only [List.set]
      unfold findBufferIndex
      rw [hid]
    | succ k =>
      simp only [List.set]
      unfold findBufferIndex
      rw [ih k c b' hc hid]

/-- Claim C3, amended: when an undo operation successfully undoes a
`bufferMerge` event at a non-zero index of a buffer that sits at index `k`
of the active stack, the merged-away buffer is removed from the merged set
and spliced back into the active stack at index `k + 1` — one past the
merging buffer's CURRENT position — not at the index it occupied before the
merge. -/
theorem undoEventIndex_merge_splice (s : PicState) (buffer : PBuffer)
    (i k mA : Nat) (e0 : PEvent) (q : Q) (mid : Nat) (A : PBuffer)
    (he0 : buffer.events.get? i = some e0)
    (hpay : e0.payload = .bufferMerge q mid)
    (hi : i ≠ 0)
    (hk : findBufferIndex s.buffers (buffer.id : Int) = some k)
    (hm : findBufferIndex s.mergedBuffers (mid : Int) = some mA)
    (hA : s.mergedBuffers.get? mA = some A) :
    Picture.undoEventIndex s buffer i false =
      .ok (some { e0 with undone := true },
        { s with
            buffers := jsInsertAt
              (s.buffers.set k { buffer with
                events := buffer.events.set i { e0 with undone := true } })
              (k + 1) { A with mergedTo := none },
            mergedBuffers := s.mergedBuffers.eraseIdx mA }) := by
  have hmarked : buffer.undoEventIndexB i (!false) =
      some ({ e0 with undone := true },
        { buffer with events := buffer.events.set i { e0 with undone := true } }) := by
    unfold PBuffer.undoEventIndexB
    rw [he0]
    dsimp only
    rw [hpay]
    simp [Payload.isMerge]
  unfold Picture.undoEventIndex
  dsimp only
  rw [hmarked]
  dsimp only
  have hset : s.setBuffer { buffer with
      events := buffer.events.set i { e0 with undone := true } } =
      { s with buffers := s.buffers.set k { buffer with
        events := buffer.events.set i { e0 with undone := true } } } :=
    setBuffer_bufs s _ k hk
  rw [hset]
  have h0 : (i == 0) = false := by simpa using hi
  rw [h0]
  simp only [Bool.false_eq_true, if_false]
  rw [hpay]
  dsimp only
  obtain ⟨c, hc, hcid⟩ := findBufferIndex_some (buffer.id : Int) s.buffers k hk
  have hcidn : buffer.id = c.id := by exact_mod_cast hcid.symm
  have hidx : findBufferIndex (s.buffers.set k { buffer with
      events := buffer.events.set i { e0 with undone := true } })
      (buffer.id : Int) = some k := by
    rw [findBufferIndex_set_same_id (buffer.id : Int) s.buffers k c
      { buffer with events := buffer.events.set i { e0 with undone := true } }
      hc hcidn]
    exact hk
  rw [hpay] at hidx
  rw [hm]
  dsimp only
  rw [hA]
  dsimp only
  rw [hidx]
  simp only [Option.map_some', Option.getD_some]

/-- Counterexample to the literal claim C3: before the merge, layer 11 sat
at stack index 1; after merging it into layer 10, moving layer 10 to index 1
and undoing the merge, layer 11 reappears at index 2, not at its original
index 1. -/
theorem undo_merge_original_position_cex :
    c3runPre.map (fun s => s.buffers.map (fun b => b.id)) = .ok [10, 11] ∧
    (c3run.bind (fun s => Picture.undoEventSessionId s 1 2)).map
      (fun p => p.2.buffers.map (fun b => b.id)) = .ok [12, 10, 11] :=
  ⟨rfl, rfl⟩

theorem undoEventIndex_merge_splice_witness :
    Picture.undoEventIndex c3sW c3bufW 1 false =
      .ok (some { c3eMerge with undone := true },
        { c3sW with
            buffers := jsInsertAt
              (c3sW.buffers.set 0 { c3bufW with
                events := c3bufW.events.set 1 { c3eMerge with undone := true } })
              1 { c3mW with mergedTo := none },
            mergedBuffers := c3sW.mergedBuffers.eraseIdx 0 }) :=
  undoEventIndex_merge_splice c3sW c3bufW 1 0 0 c3eMerge (Q.ofInt 1) 8 c3mW
    rfl rfl (by decide) rfl rfl rfl

/-- Claim C9: every event-creating operation stamps the created event with
the active session id and the current session-event counter and advances the
counter by one, so ids within a session are strictly increasing; and after
`setActiveSession sid`, the counter is strictly greater than the session
event id of every event of that session already present in any active or
merged-away buffer, undone events included. -/
theorem creators_fresh_ids (s : PicState) (sid : Nat) (b : PBuffer) (e : PEvent)
    (c1 c2 c3 mode bid cr cg cb ca hsid0 hseid0 movedId toIndex mIdx : Nat)
    (hasAlpha : Bool) (flow opacity radius softness : Q)
    (hb : b ∈ s.buffers ++ s.mergedBuffers) (he : e ∈ b.events)
    (hsid : e.sid = sid) :
    ((Picture.createBrushEvent s c1 c2 c3 flow opacity radius softness mode).1.sid
        = s.activeSid ∧
      (Picture.createBrushEvent s c1 c2 c3 flow opacity radius softness
        mode).1.sessionEventId = s.activeSessionEventId ∧
      (Picture.createBrushEvent s c1 c2 c3 flow opacity radius softness
        mode).2.activeSessionEventId = s.activeSessionEventId + 1) ∧
    ((Picture.createScatterEvent s c1 c2 c3 flow opacity radius softness
        mode).1.sessionEventId = s.activeSessionEventId ∧
      (Picture.createScatterEvent s c1 c2 c3 flow opacity radius softness
        mode).2.activeSessionEventId = s.activeSessionEventId + 1) ∧
    ((Picture.createGradientEvent s c1 c2 c3 opacity mode).1.sessionEventId
        = s.activeSessionEventId ∧
      (Picture.createGradientEvent s c1 c2 c3 opacity
        mode).2.activeSessionEventId = s.activeSessionEventId + 1) ∧
    ((Picture.createBufferAddEvent s bid hasAlpha cr cg cb ca).1.sessionEventId
        = s.activeSessionEventId ∧
      (Picture.createBufferAddEvent s bid hasAlpha cr cg cb
        ca).2.activeSessionEventId = s.activeSessionEventId + 1) ∧
    ((Picture.createBufferRemoveEvent s bid).1.sessionEventId
        = s.activeSessionEventId ∧
      (Picture.createBufferRemoveEvent s bid).2.activeSessionEventId
        = s.activeSessionEventId + 1) ∧
    ((Picture.createBufferMoveEvent s movedId toIndex).1.sessionEventId
        = s.activeSessionEventId ∧
      (Picture.createBufferMoveEvent s movedId toIndex).2.activeSessionEventId
        = s.activeSessionEventId + 1) ∧
    ((Picture.createMergeEvent s mIdx opacity).1.sessionEventId
        = s.activeSessionEventId ∧
      (Picture.createMergeEvent s mIdx opacity).2.activeSessionEventId
        = s.activeSessionEventId + 1) ∧
    ((Picture.createEventHideEvent s hsid0 hseid0).1.sessionEventId
        = s.activeSessionEventId ∧
      (Picture.createEventHideEvent s hsid0 hseid0).2.activeSessionEventId
        = s.activeSessionEventId + 1) ∧
    e.sessionEventId < (Picture.setActiveSession s sid).activeSessionEventId := by
  refine ⟨⟨rfl, rfl, rfl⟩, ⟨rfl, rfl⟩, ⟨rfl, rfl⟩, ⟨rfl, rfl⟩, ⟨rfl, rfl⟩,
    ⟨rfl, rfl⟩, ⟨rfl, rfl⟩, ⟨rfl, rfl⟩, ?_⟩
  unfold Picture.setActiveSession
  dsimp only
  rcases hf : Picture.findLatest
      { s with activeSid := sid, activeSessionEventId := 0 } sid true
      with _ | latest
  · exact (findLatest_none _ sid true hf b hb e he hsid (by simp)).elim
  · dsimp only
    have hle := findLatest_le _ sid true latest hf b hb e he hsid (by simp)
    omega

theorem creators_fresh_ids_witness :
    5 < (Picture.setActiveSession c9sW 7).activeSessionEventId :=
  (creators_fresh_ids c9sW 7 c9bW c9eW 0 0 0 0 0 0 0 0 0 0 0 0 0 0 true
    (Q.ofInt 1) (Q.ofInt 1) (Q.ofInt 1) (Q.ofInt 1)
    (by simp [c9sW]) (by simp [c9bW]) rfl).2.2.2.2.2.2.2.2

theorem parseLoop_malformed :
    ∀ (lines : List (List Tok)) (s : PicState) (currentId : Int) (j : Nat)
      (line : List Tok), lines.get? j = some line →
      (∀ i, i < j → ∀ li, lines.get? i = some li → li ≠ [Tok.w "metadata"]) →
      line ≠ [Tok.w "metadata"] → parseEventTokens line = none →
      ∃ e, parseLoop lines s currentId = .error e := by
  intro lines
  induction lines with
  | nil => intro s cid j line hj; exact absurd hj (by simp)
  | cons l0 rest ih =>
    intro s cid j line hj hpre hne hbad
    cases j with
    | zero =>
      injection hj with hj
      subst hj
      unfold parseLoop
      rw [if_neg hne, hbad]
      exact ⟨.parseError, rfl⟩
    | succ j =>
      have h0 : l0 ≠ [Tok.w "metadata"] :=
        hpre 0 (Nat.succ_pos j) l0 rfl
      unfold parseLoop
      rw [if_neg h0]
      rcases hpe : parseEventTokens l0 with _ | e
      · exact ⟨.parseError, rfl⟩
      · dsimp only
        rcases hpush : Picture.pushEvent false s cid e with er | s'
        · exact ⟨er, rfl⟩
        · dsimp only
          rcases hlast : s'.buffers.getLast? with _ | lastB
          · exact ⟨.typeError, rfl⟩
          · exact ih s' (lastB.id : Int) j line hj
              (fun i hi li hli => hpre (i + 1) (Nat.succ_lt_succ hi) li hli)
              hne hbad

/-- Claim C6: a serialization whose header line is not of a supported form
makes `Picture.parse` fail with a bad-header error, and a malformed event
line before the metadata marker makes the whole parse fail with an error —
no partial document holding a prefix of the events is ever returned. -/
theorem parse_all_or_nothing (header : List Tok) (rest : List (List Tok))
    (j : Nat) (line : List Tok) :
    (parseHeaderTokens header = none →
      Picture.parse (header :: rest) = .error .badHeader) ∧
    (rest.get? j = some line →
      (∀ i, i < j → ∀ li, rest.get? i = some li → li ≠ [Tok.w "metadata"]) →
      line ≠ [Tok.w "metadata"] → parseEventTokens line = none →
      ∃ e, Picture.parse (header :: rest) = .error e) := by
  constructor
  · intro hh
    unfold Picture.parse
    dsimp only
    rw [hh]
  · intro hj hpre hne hbad
    unfold Picture.parse
    dsimp only
    rcases hh : parseHeaderTokens header with _ | v
    · exact ⟨.badHeader, rfl⟩
    · obtain ⟨vv, wd, ht⟩ := v
      dsimp only
      obtain ⟨e, he⟩ := parseLoop_malformed rest (initPicture wd ht) (-1) j line
        hj hpre hne hbad
      rw [he]
      exact ⟨e, rfl⟩

theorem parse_all_or_nothing_witness :
    Picture.parse ([Tok.w "bogus"] :: []) = .error .badHeader ∧
    ∃ e, Picture.parse
      ([Tok.w "picture", Tok.w "version", Tok.n 1, Tok.n 4, Tok.n 4] ::
        [[Tok.w "junk"]]) = .error e :=
  ⟨(parse_all_or_nothing [Tok.w "bogus"] [] 0 []).1 rfl,
   (parse_all_or_nothing [Tok.w "picture", Tok.w "version", Tok.n 1, Tok.n 4,
      Tok.n 4] [[Tok.w "junk"]] 0 [Tok.w "junk"]).2 rfl
    (fun i hi _ _ => absurd hi (Nat.not_lt_zero i)) (by decide) rfl⟩

theorem Q.toRat_add (a b : Q) (ha : 0 < a.den) (hb : 0 < b.den) :
    (a.add b).toRat = a.toRat + b.toRat := by
  unfold Q.add Q.toRat
  have ha' : ((a.den : ℚ)) ≠ 0 := Nat.cast_ne_zero.mpr ha.ne'
  have hb' : ((b.den : ℚ)) ≠ 0 := Nat.cast_ne_zero.mpr hb.ne'
  field_simp

theorem Q.toRat_sub (a b : Q) (ha : 0 < a.den) (hb : 0 < b.den) :
    (a.sub b).toRat = a.toRat - b.toRat := by
  unfold Q.sub Q.toRat
  have ha' : ((a.den : ℚ)) ≠ 0 := Nat.cast_ne_zero.mpr ha.ne'
  have hb' : ((b.den : ℚ)) ≠ 0 := Nat.cast_ne_zero.mpr hb.ne'
  field_simp
  ring

theorem Q.blt_iff (a b : Q) (ha : 0 < a.den) (hb : 0 < b.den) :
    Q.blt a b = true ↔ a.toRat < b.toRat := by
  unfold Q.blt Q.toRat
  rw [decide_eq_true_iff]
  rw [div_lt_div_iff (by exact_mod_cast ha) (by exact_mod_cast hb)]
  constructor <;> intro h <;> exact_mod_cast h

theorem Q.toRat_tenths (n : Nat) : (Q.tenths n).toRat = n * (1 / 10) := by
  unfold Q.tenths Q.toRat
  push_cast
  ring

theorem bufferFreeingPriority_toRat (b : PBuffer)
    (hdb : 0 < b.undoStateBudget.den) :
    (bufferFreeingPriority b).toRat =
      b.undoStateBudget.toRat +
        (if ((b.isRemoved || b.mergedTo.isSome) &&
            Q.blt (Q.ofInt 1) b.undoStateBudget) = true then
          b.undoStateBudget.toRat - 3 / 2 else 0)
        - b.numUndoStates * (1 / 10) := by
  unfold bufferFreeingPriority
  dsimp only
  by_cases hc : ((b.isRemoved || b.mergedTo.isSome) &&
      Q.blt (Q.ofInt 1) b.undoStateBudget) = true
  · rw [if_pos hc, if_pos hc]
    rw [Q.toRat_sub _ _ (by simp [Q.add, Q.sub, Q.threeHalves]; positivity)
      (by simp [Q.tenths])]
    rw [Q.toRat_add _ _ hdb (by simp [Q.sub, Q.threeHalves]; positivity)]
    rw [Q.toRat_sub _ _ hdb (by simp [Q.threeHalves])]
    rw [Q.toRat_tenths]
    have h32 : Q.threeHalves.toRat = 3 / 2 := by
      unfold Q.threeHalves Q.toRat
      norm_num
    rw [h32]
  · rw [if_neg hc, if_neg hc]
    rw [Q.toRat_sub _ _ hdb (by simp [Q.tenths])]
    rw [Q.toRat_tenths]
    ring

/-- Claim C7, amended: the freeing priority of a buffer equals its budget,
minus one tenth per retained undo state, plus the bonus `budget - 3/2`
applied exactly when the buffer is removed or merged away and its budget
exceeds one; a removed or merged-away buffer receives a STRICTLY higher
priority than an otherwise identical live one only when the shared budget
exceeds 3/2, since for budgets in (1, 3/2] the bonus is not positive. -/
theorem bufferFreeingPriority_spec (b b1 b2 : PBuffer)
    (hdb : 0 < b.undoStateBudget.den)
    (hd1 : 0 < b1.undoStateBudget.den)
    (hbudget : b1.undoStateBudget = b2.undoStateBudget)
    (hn : b1.numUndoStates = b2.numUndoStates)
    (hc1 : (b1.isRemoved || b1.mergedTo.isSome) = true)
    (hc2 : (b2.isRemoved || b2.mergedTo.isSome) = false)
    (hgt : Q.blt Q.threeHalves b1.undoStateBudget = true) :
    (bufferFreeingPriority b).toRat =
      b.undoStateBudget.toRat +
        (if ((b.isRemoved || b.mergedTo.isSome) &&
            Q.blt (Q.ofInt 1) b.undoStateBudget) = true then
          b.undoStateBudget.toRat - 3 / 2 else 0)
        - b.numUndoStates * (1 / 10) ∧
    (bufferFreeingPriority b2).toRat < (bufferFreeingPriority b1).toRat := by
  have h32 : Q.threeHalves.toRat = 3 / 2 := by
    unfold Q.threeHalves Q.toRat
    norm_num
  have hgt' : (3 : ℚ) / 2 < b1.undoStateBudget.toRat := by
    rw [← h32]
    exact (Q.blt_iff _ _ (by simp [Q.threeHalves]) hd1).mp hgt
  have h1lt : Q.blt (Q.ofInt 1) b1.undoStateBudget = true := by
    rw [Q.blt_iff _ _ (by simp [Q.ofInt]) hd1]
    have h1 : (Q.ofInt 1).toRat = 1 := by
      unfold Q.ofInt Q.toRat
      norm_num
    rw [h1]
    linarith
  refine ⟨bufferFreeingPriority_toRat b hdb, ?_⟩
  have hf1 := bufferFreeingPriority_toRat b1 hd1
  have hf2 := bufferFreeingPriority_toRat b2 (hbudget ▸ hd1)
  rw [if_pos (by rw [hc1, h1lt]; rfl)] at hf1
  rw [if_neg (by rw [hc2]; simp)] at hf2
  rw [hf1, hf2, ← hbudget, hn]
  linarith

/-- Counterexample to the literal claim C7: with the shared budget 6/5 —
greater than one — the removed buffer's priority is strictly LOWER than the
live buffer's, because the bonus 6/5 - 3/2 is negative. -/
theorem bufferFreeingPriority_not_higher :
    c7b1.undoStateBudget = c7b2.undoStateBudget ∧
    Q.blt (Q.ofInt 1) c7b1.undoStateBudget = true ∧
    c7b1.isRemoved = true ∧
    (c7b2.isRemoved || c7b2.mergedTo.isSome) = false ∧
    c7b1.numUndoStates = c7b2.numUndoStates ∧
    Q.blt (bufferFreeingPriority c7b1) (bufferFreeingPriority c7b2) = true := by
  decide

theorem bufferFreeingPriority_spec_witness :
    (bufferFreeingPriority c7w1).toRat =
      c7w1.undoStateBudget.toRat +
        (if ((c7w1.isRemoved || c7w1.mergedTo.isSome) &&
            Q.blt (Q.ofInt 1) c7w1.undoStateBudget) = true then
          c7w1.undoStateBudget.toRat - 3 / 2 else 0)
        - c7w1.numUndoStates * (1 / 10) ∧
    (bufferFreeingPriority c7w2).toRat < (bufferFreeingPriority c7w1).toRat :=
  bufferFreeingPriority_spec c7w1 c7w1 c7w2 (by decide) (by decide) (by decide)
    (by decide) (by decide) (by decide) (by decide)

/-- Claim C1: the eviction loop of `stayWithinMemoryBudget` consults the
freed flag of the ACTIVE buffer at the merged-list index.  On `c1s1` the
loop exits with nothing evicted although the merged buffer has budget above
one, is not freed, and memory use still exceeds the budget — so eviction
stops while a candidate buffer can still give up budget; on `c1s2`, whose
merged list is longer than its active stack, the scan faults instead of
terminating. -/
theorem stayWithinMemoryBudget_bug :
    (stayWithinMemoryBudget c1s1 0 = .ok c1s1 ∧
      c1s1.memoryUse - (c1s1.memoryBudget - 0) > 0 ∧
      ∃ m ∈ c1s1.mergedBuffers,
        Q.blt (Q.ofInt 1) m.undoStateBudget = true ∧ m.freed = false) ∧
    stayWithinMemoryBudget c1s2 0 = .error .typeError :=
  ⟨⟨rfl, by decide,
    ⟨⟨1, [], 1, ⟨2, 1⟩, 1, 4, 1, false, some 0⟩,
     List.mem_singleton.mpr rfl, by decide⟩⟩, rfl⟩

/-- Claim C2: the document `c2build` is built from supported operations
only, yet parsing its serialization fails with a type error — after the
merges are undone and redone, the merged-buffer list no longer matches the
replay order the parser relies on, so `parse (serialize doc)` is not
lossless. -/
theorem serialize_parse_roundtrip_fails :
    c2build.map (fun _ => ()) = .ok () ∧
    c2build.bind (fun s => Picture.parse (serializeLines s)) =
      .error .typeError :=
  ⟨rfl, rfl⟩

/-- Counterexample to the literal claim C4: the active session's latest
not-undone event is the creation event of `c4csA`, a buffer that is removed
— so it is NOT the creation event of the only remaining non-removed buffer
— yet the keep-last-buffer guard still fires and `undoLatest` returns the
null sentinel without undoing it. -/
theorem undoLatest_guard_removed_buffer_cex :
    c4csA.isRemoved = true ∧
    Picture.findLatest c4cs c4cs.activeSid false = some ⟨0, 0, 0, false⟩ ∧
    c4cs.buffers.get? 0 = some c4csA ∧
    Picture.undoLatest c4cs true = .ok (none, c4cs) :=
  ⟨rfl, rfl, rfl, rfl⟩

theorem undoLatest_spec_witness :
    Picture.undoLatest c4sW true = .ok (none, c4sW) :=
  (undoLatest_spec c4sW).2.2.1 ⟨0, 0, 0, false⟩ rfl rfl rfl (by decide)

theorem sessionId_ops_not_found_noop_witness :
    Picture.undoEventSessionId c5sW 2 9 = .ok (none, c5sW) ∧
    Picture.redoEventSessionId c5sW 2 9 = .ok (false, c5sW) ∧
    Picture.removeEventSessionId c5sW 2 9 = .ok (false, c5sW) :=
  sessionId_ops_not_found_noop c5sW 2 9 (by decide)

theorem redo_found_not_undone_witness :
    Picture.redoEventSessionId c10sW 2 5 = .ok (true, c10sW) :=
  redo_found_not_undone c10sW 2 5 (by decide) (by decide)

end GB
